import Mathlib

/-!
# A verification model of the jupyter-cache cache engine and executor coordinator

This file gives a shallow embedding, in Lean, of the core of the
`jupyter_cache` package vendored in this repository
(`jupyter_cache/cache/main.py`, `jupyter_cache/cache/db.py`,
`jupyter_cache/base.py`, `jupyter_cache/executors/{base,basic,utils}.py`),
together with theorems settling the stated properties of its
canonicalization, ingestion, eviction, merge and executor logic.

Modelling conventions:

* JSON metadata mappings are association lists from `String` keys to opaque
  `String` payloads, preserving insertion order (Python dicts preserve order).
* `datetime.utcnow()` is a strictly monotone logical clock `time : Nat`
  carried in the state; every database write that records a timestamp uses
  the current clock value and advances it.
* The MD5 hex digest of the serialized canonical projection is modelled by
  the canonical projection itself (`Fingerprint := HashNb`): serialization
  with stable key order is injective on projections, and MD5 is treated as
  collision-free, so two fingerprints are equal exactly when the projections
  are.
* Exceptions are `Except` values; where state has been mutated before a
  Python `raise`, the error value carries the state at the moment of the
  raise, so that the theorems can speak about what an error path left behind.
-/

set_option autoImplicit false

deriving instance DecidableEq for Except

namespace JupyterCache

/-- A metadata mapping (Python `dict` with string keys), values opaque. -/
abbrev Meta := List (String × String)

/-- One notebook cell (`nbformat` v4 cell node).  `execution_count` and
`outputs` are only meaningful for code cells; `id` is present from
nbformat minor version 5 on. -/
structure Cell where
  cell_type : String
  source : String
  metadata : Meta
  execution_count : Option Int
  outputs : List String
  id : Option String
  deriving DecidableEq, Repr

/-- A notebook tree (`nbformat.NotebookNode` at top level). -/
structure Notebook where
  nbformat : Nat
  nbformat_minor : Nat
  metadata : Meta
  cells : List Cell
  deriving DecidableEq, Repr

/-- The projection of a code cell used for hashing
(`create_hashed_notebook`, main.py lines 155-169): `cell_type`, `source`,
filtered `metadata`, `execution_count=None`, `outputs=[]`; no `id`. -/
structure HashCell where
  cell_type : String
  source : String
  metadata : Meta
  execution_count : Option Int
  outputs : List String
  deriving DecidableEq, Repr

/-- The canonical notebook projection that is serialized and hashed
(`create_hashed_notebook`, main.py lines 146-171). -/
structure HashNb where
  nbformat : Nat
  nbformat_minor : Nat
  metadata : Meta
  cells : List HashCell
  deriving DecidableEq, Repr

/-- The fingerprint of a notebook.  The code computes
`hashlib.md5(nbf.writes(hash_nb)).hexdigest()`; serialization with stable
key order is injective and MD5 is modelled as collision-free, so the
fingerprint is modelled by the canonical projection itself. -/
abbrev Fingerprint := HashNb

/-- The error taxonomy of the cache (base.py, db.py).  `nbValidityError`
carries the data interpolated into its message (offending cell index,
expected and actual execution count) plus the bundle's origin URI
(`NbValidityError.__init__`, base.py lines 36-38). -/
inductive CacheError where
  | cachingError (msg : String)
  | nbValidityError (cellIndex : Nat) (expected : Int) (actual : Option Int) (uri : String)
  | keyError (msg : String)
  | valueError (msg : String)
  | nbReadError (msg : String)
  | indexError
  deriving DecidableEq, Repr

/-- Extra JSON data attached to a cache record (e.g. execution time in
seconds); values opaque, modelled as `Nat`. -/
abbrev ExtraData := List (String × Nat)

/-- `CacheBundleIn` (base.py lines 81-111): a notebook plus associated data
to cache.  Artifacts are (relative path, byte content) pairs. -/
structure CacheBundleIn where
  nb : Notebook
  uri : String
  artifacts : Option (List (String × String))
  data : ExtraData
  traceback : Option String
  deriving DecidableEq, Repr

/-- `NbCacheRecord` (db.py lines 275-289): one row of the `nbcache` table. -/
structure NbCacheRecord where
  pk : Nat
  hashkey : Fingerprint
  uri : String
  description : String
  data : ExtraData
  created : Nat
  accessed : Nat
  deriving DecidableEq, Repr

/-- One on-disk directory `executed/<fingerprint>/` holding `base.ipynb`
and an `artifacts/` subtree. -/
structure DiskDir where
  fp : Fingerprint
  base : Notebook
  artifacts : List (String × String)
  deriving DecidableEq, Repr

/-- The joint state of the metadata store and the artifact store:
the `nbcache` table rows, the on-disk `executed/` tree, the SQL
autoincrement counter, the optional `cache_limit` setting and the
logical clock. -/
structure CacheState where
  records : List NbCacheRecord
  disk : List DiskDir
  nextPk : Nat
  cache_limit_setting : Option Nat
  time : Nat
  deriving DecidableEq, Repr

/-! ## Canonicalizer (`JupyterCacheBase.create_hashed_notebook`) -/

/-- `NB_VERSION` (base.py line 19). -/
def NB_VERSION : Nat := 4

/-- `DEFAULT_CACHE_LIMIT` (main.py line 28). -/
def DEFAULT_CACHE_LIMIT : Nat := 1000

/-- Metadata filtering by an allow-list: `None` keeps every key
(main.py lines 150-154 and 159-163). -/
def filterMeta (allow : Option (List String)) (m : Meta) : Meta :=
  m.filter (fun kv =>
    match allow with
    | none => true
    | some keys => keys.contains kv.1)

/-- `nbf.convert(nb, to_version=NB_VERSION)` modelled for inputs already at
major version 4 (the only major version the cache accepts), where the
conversion leaves the notebook unchanged. -/
def nbf_convert (nb : Notebook) : Notebook := nb

/-- The code cells of a notebook, in order. -/
def codeCells (nb : Notebook) : List Cell :=
  nb.cells.filter (fun c => c.cell_type == "code")

/-- The per-cell projection used for hashing (main.py lines 156-166). -/
def cellProj (cell_metadata : Option (List String)) (cell : Cell) : HashCell :=
  { cell_type := cell.cell_type
    source := cell.source
    metadata := filterMeta cell_metadata cell.metadata
    execution_count := none
    outputs := [] }

/-- The default notebook-metadata allow-list `("kernelspec",)`
(main.py line 124). -/
def DEFAULT_NB_METADATA : Option (List String) := some ["kernelspec"]

/-- `JupyterCacheBase.create_hashed_notebook` (main.py lines 121-177):
deep-copy, convert to version 4, reject minor > 5, drop non-code cells,
build the hashing projection and return the stripped notebook together
with its fingerprint. -/
def create_hashed_notebook (nb : Notebook)
    (nb_metadata cell_metadata : Option (List String)) :
    Except CacheError (Notebook × Fingerprint) :=
  let nb1 := nbf_convert nb
  if nb1.nbformat_minor > 5 then
    .error (.cachingError "notebook version greater than 4.5 not yet supported")
  else
    let nb2 : Notebook := { nb1 with cells := nb1.cells.filter (fun c => c.cell_type == "code") }
    let hash_nb : HashNb :=
      { nbformat := nb2.nbformat
        nbformat_minor := 4
        metadata := filterMeta nb_metadata nb2.metadata
        cells := (nb2.cells.filter (fun c => c.cell_type == "code")).map (cellProj cell_metadata) }
    .ok (nb2, hash_nb)

/-! ## Validation (`JupyterCacheBase._validate_nb_bundle`) -/

/-- The loop of `_validate_nb_bundle` (main.py lines 185-196): walk the
cells with their enumeration index, skipping non-code cells, requiring the
running `execution_count` (starting at 1), and raising `NbValidityError` at
the first violation. -/
def validateCells (uri : String) : List Cell → Nat → Int → Except CacheError Unit
  | [], _, _ => .ok ()
  | cell :: rest, i, ec =>
    if cell.cell_type ≠ "code" then
      validateCells uri rest (i + 1) ec
    else if cell.execution_count = some ec then
      validateCells uri rest (i + 1) (ec + 1)
    else
      .error (.nbValidityError i ec cell.execution_count uri)

/-- `JupyterCacheBase._validate_nb_bundle` (main.py lines 179-198). -/
def validate_nb_bundle (bundle : CacheBundleIn) : Except CacheError Unit :=
  validateCells bundle.uri bundle.nb.cells 0 1

/-! ## Metadata store operations (`cache/db.py`) -/

/-- `Setting.get_value(CACHE_LIMIT_KEY, db, DEFAULT_CACHE_LIMIT)`
(main.py line 107, db.py lines 94-104): the stored setting, or the
supplied default when absent. -/
def get_cache_limit (s : CacheState) : Nat :=
  s.cache_limit_setting.getD DEFAULT_CACHE_LIMIT

/-- Insert a record into a list kept sorted by `accessed` descending. -/
def insertByAccessedDesc (r : NbCacheRecord) : List NbCacheRecord → List NbCacheRecord
  | [] => [r]
  | x :: xs =>
    if r.accessed ≤ x.accessed then x :: insertByAccessedDesc r xs
    else r :: x :: xs

/-- Sort records by `accessed` descending, modelling the SQL
`ORDER BY accessed DESC` in `NbCacheRecord.records_to_delete`
(db.py lines 397-403).  On distinct `accessed` values (which the
strictly monotone clock guarantees) any implementation agrees. -/
def sortByAccessedDesc : List NbCacheRecord → List NbCacheRecord
  | [] => []
  | r :: rest => insertByAccessedDesc r (sortByAccessedDesc rest)

/-- `NbCacheRecord.records_to_delete(keep, db)` (db.py lines 394-410):
the pks to keep are the first `keep` records ordered by `accessed`
descending; every other record's pk is returned for deletion. -/
def records_to_delete (keep : Nat) (records : List NbCacheRecord) : List Nat :=
  let pks_to_keep := ((sortByAccessedDesc records).take keep).map (fun r => r.pk)
  (records.filter (fun r => !(pks_to_keep.contains r.pk))).map (fun r => r.pk)

/-- `NbCacheRecord.touch(pk, db)` (db.py lines 360-367), for a pk that is
present: set the record's `accessed` to the current clock and advance the
clock. -/
def touchRecord (pk : Nat) (s : CacheState) : CacheState :=
  { s with
    records := s.records.map (fun r => if r.pk == pk then { r with accessed := s.time } else r)
    time := s.time + 1 }

/-! ## Artifact store operations -/

/-- Whether `notebook_path(fp) = executed/<fp>/base.ipynb` exists on disk
(`path.exists()`, main.py line 216). -/
def diskContains (s : CacheState) (fp : Fingerprint) : Bool :=
  s.disk.any (fun d => d.fp == fp)

/-- Look up the on-disk directory for a fingerprint. -/
def diskFind (s : CacheState) (fp : Fingerprint) : Option DiskDir :=
  s.disk.find? (fun d => d.fp == fp)

/-- `shutil.rmtree(path.parent)` (main.py line 221): remove the whole
`executed/<fp>/` directory. -/
def removeDiskDir (s : CacheState) (fp : Fingerprint) : CacheState :=
  { s with disk := s.disk.filter (fun d => !(d.fp == fp)) }

/-- Writing `base.ipynb` and the artifact files under `executed/<fp>/`
(main.py lines 237-247). -/
def writeDiskDir (s : CacheState) (fp : Fingerprint) (base : Notebook)
    (artifacts : List (String × String)) : CacheState :=
  { s with disk := s.disk ++ [{ fp := fp, base := base, artifacts := artifacts }] }

/-! ## Cache engine (`cache/main.py`) -/

/-- `JupyterCacheBase.remove_cache(pk)` (main.py lines 324-330): find the
record, fail with `KeyError` when its notebook file is missing on disk,
otherwise remove the directory and the record.  The error carries the
state at the moment of the raise. -/
def remove_cache (pk : Nat) (s : CacheState) :
    Except (CacheError × CacheState) CacheState :=
  match s.records.find? (fun r => r.pk == pk) with
  | none => .error (.keyError "Cache record not found for NB with PK", s)
  | some record =>
    if diskContains s record.hashkey then
      .ok { s with
        disk := s.disk.filter (fun d => !(d.fp == record.hashkey))
        records := s.records.filter (fun r => !(r.pk == pk)) }
    else
      .error (.keyError "Notebook file does not exist for cache record PK", s)

/-- The loop `for pk in pks: self.remove_cache(pk)` (main.py lines 111-112). -/
def removeCaches (pks : List Nat) (s : CacheState) :
    Except (CacheError × CacheState) CacheState :=
  match pks with
  | [] => .ok s
  | pk :: rest =>
    match remove_cache pk s with
    | .error es => .error es
    | .ok s1 => removeCaches rest s1

/-- `JupyterCacheBase.truncate_caches` (main.py lines 105-112): read the
cache limit, compute the pks to delete, and remove each cache in turn. -/
def truncate_caches (s : CacheState) : Except (CacheError × CacheState) CacheState :=
  removeCaches (records_to_delete (get_cache_limit s) s.records) s

/-- `JupyterCacheBase.cache_notebook_bundle` (main.py lines 200-251):
validate (optionally), hash, handle an existing on-disk notebook per
`overwrite`, drop any stale metadata record for the fingerprint, create
the new record, write the notebook and artifacts, then truncate.
Errors carry the state at the moment of the raise. -/
def cache_notebook_bundle (bundle : CacheBundleIn) (check_validity overwrite : Bool)
    (description : String) (s : CacheState) :
    Except (CacheError × CacheState) (NbCacheRecord × CacheState) :=
  match (if check_validity then validate_nb_bundle bundle else .ok ()) with
  | .error e => .error (e, s)
  | .ok _ =>
    match create_hashed_notebook bundle.nb DEFAULT_NB_METADATA none with
    | .error e => .error (e, s)
    | .ok (hashed_nb, hashkey) =>
      if diskContains s hashkey && !overwrite then
        .error (.cachingError "Notebook already exists in cache and overwrite=False.", s)
      else
        let s1 := if diskContains s hashkey then removeDiskDir s hashkey else s
        let s2 :=
          match s1.records.find? (fun r => r.hashkey == hashkey) with
          | some record => { s1 with records := s1.records.filter (fun r => !(r.pk == record.pk)) }
          | none => s1
        if s2.records.any (fun r => r.hashkey == hashkey) then
          .error (.valueError "hashkey already exists", s2)
        else
          let record : NbCacheRecord :=
            { pk := s2.nextPk, hashkey := hashkey, uri := bundle.uri,
              description := description, data := bundle.data,
              created := s2.time, accessed := s2.time }
          let s3 : CacheState :=
            { s2 with
              records := s2.records ++ [record]
              nextPk := s2.nextPk + 1
              time := s2.time + 1 }
          let s4 := writeDiskDir s3 hashkey hashed_nb (bundle.artifacts.getD [])
          match truncate_caches s4 with
          | .error es => .error es
          | .ok s5 => .ok (record, s5)

/-- `CacheBundleOut` (base.py lines 114-127), with the artifact listing. -/
structure CacheBundleOut where
  nb : Notebook
  record : NbCacheRecord
  artifacts : List (String × String)
  deriving DecidableEq, Repr

/-- `JupyterCacheBase.get_cache_bundle(pk)` (main.py lines 294-309): fetch
the record, touch it, then check the notebook file exists on disk —
raising `KeyError` (with the touch already committed) when it does not. -/
def get_cache_bundle (pk : Nat) (s : CacheState) :
    Except (CacheError × CacheState) (CacheBundleOut × CacheState) :=
  match s.records.find? (fun r => r.pk == pk) with
  | none => .error (CacheError.keyError "Cache record not found for NB with PK", s)
  | some record =>
    let s1 := touchRecord pk s
    match diskFind s1 record.hashkey with
    | none => .error (CacheError.keyError "Notebook file does not exist for cache record PK", s1)
    | some d => .ok (⟨d.base, record, d.artifacts⟩, s1)

/-- `JupyterCacheBase.match_cache_notebook(nb)` (main.py lines 332-339). -/
def match_cache_notebook (nb : Notebook) (s : CacheState) :
    Except (CacheError × CacheState) NbCacheRecord :=
  match create_hashed_notebook nb DEFAULT_NB_METADATA none with
  | .error e => .error (e, s)
  | .ok (_, hashkey) =>
    match s.records.find? (fun r => r.hashkey == hashkey) with
    | none => .error (CacheError.keyError "Cache record not found for NB with hashkey", s)
    | some r => .ok r

/-! ## Merge (`JupyterCacheBase.merge_match_into_notebook`) -/

/-- Look up a key in a metadata mapping. -/
def metaLookup (m : Meta) (k : String) : Option String :=
  (m.find? (fun kv => kv.1 == k)).map (fun kv => kv.2)

/-- `d[k] = v` on a Python dict: replace the value when the key is
present, otherwise append the pair (insertion order preserved). -/
def metaSet (m : Meta) (k : String) (v : String) : Meta :=
  if m.any (fun kv => kv.1 == k) then
    m.map (fun kv => if kv.1 == k then (k, v) else kv)
  else
    m ++ [(k, v)]

/-- `d.update(overlay)` on a Python dict. -/
def metaUpdate (m overlay : Meta) : Meta :=
  overlay.foldl (fun acc kv => metaSet acc kv.1 kv.2) m

/-- The default `nb_meta` of `merge_match_into_notebook`
(main.py line 344). -/
def DEFAULT_MERGE_NB_META : Option (List String) :=
  some ["kernelspec", "language_info", "widgets"]

/-- The body of the cell-merge loop (main.py lines 369-380) for one code
cell: when `cell_meta` is supplied, update the input cell's metadata with
the selected cached keys and install the result on the cached cell; then
carry the input cell's `id` when the format supports ids (minor ≥ 5) and
drop the cached `id` otherwise. -/
def mergeCell (cell_meta : Option (List String)) (minor : Nat)
    (cache_cell in_cell : Cell) : Cell :=
  let cache_cell :=
    match cell_meta with
    | some keys =>
      { cache_cell with
        metadata := metaUpdate in_cell.metadata
          (cache_cell.metadata.filter (fun kv => keys.contains kv.1)) }
    | none => cache_cell
  if minor ≥ 5 then { cache_cell with id := in_cell.id }
  else { cache_cell with id := none }

/-- The cell-merge loop (main.py lines 365-380): walk the input cells in
order; at each code cell consume (`pop(0)`) one cell from the cached
notebook and substitute the merged cell; leave other cells alone.
`none` models the `IndexError` of popping an exhausted list. -/
def mergeCells (cell_meta : Option (List String)) (minor : Nat) :
    List Cell → List Cell → Option (List Cell)
  | _, [] => some []
  | cacheCells, c :: rest =>
    if c.cell_type == "code" then
      match cacheCells with
      | [] => none
      | cc :: ccs =>
        (mergeCells cell_meta minor ccs rest).map (mergeCell cell_meta minor cc c :: ·)
    else
      (mergeCells cell_meta minor cacheCells rest).map (c :: ·)

/-- `JupyterCacheBase.merge_match_into_notebook` (main.py lines 341-381):
match the notebook's fingerprint to a record, load the cached notebook
(touching the record), copy the selected notebook-level metadata, and run
the cell-merge loop. -/
def merge_match_into_notebook (nb : Notebook)
    (nb_meta cell_meta : Option (List String)) (s : CacheState) :
    Except (CacheError × CacheState) ((Nat × Notebook) × CacheState) :=
  match match_cache_notebook nb s with
  | .error es => .error es
  | .ok record =>
    match get_cache_bundle record.pk s with
    | .error es => .error es
    | .ok (bundleOut, s1) =>
      let cache_nb := bundleOut.nb
      let nb1 := nbf_convert nb
      let metadata :=
        match nb_meta with
        | none => cache_nb.metadata
        | some keys =>
          keys.foldl
            (fun m key =>
              match metaLookup cache_nb.metadata key with
              | some v => metaSet m key v
              | none => m)
            nb1.metadata
      match mergeCells cell_meta nb1.nbformat_minor cache_nb.cells nb1.cells with
      | none => .error (CacheError.indexError, s1)
      | some cells =>
        .ok ((record.pk, { nb1 with metadata := metadata, cells := cells }), s1)

/-! ## Project registry and executors (`executors/{base,basic,utils}.py`) -/

/-- `NbProjectRecord` (db.py lines 113-128), restricted to the fields the
executor claims touch. -/
structure NbProjectRecord where
  pk : Nat
  uri : String
  assets : List String
  traceback : Option String
  deriving DecidableEq, Repr

/-- `ProjectNb` (base.py lines 41-62). -/
structure ProjectNb where
  pk : Nat
  uri : String
  nb : Notebook
  assets : List String
  deriving DecidableEq, Repr

/-- `JupyterCacheBase.list_project_records(filter_uris, filter_pks)`
(main.py lines 432-442); the input list is the table ordered by pk. -/
def list_project_records (filter_uris : Option (List String))
    (filter_pks : Option (List Nat)) (projects : List NbProjectRecord) :
    List NbProjectRecord :=
  let records :=
    match filter_uris with
    | none => projects
    | some uris => projects.filter (fun r => uris.contains r.uri)
  match filter_pks with
  | none => records
  | some pks => records.filter (fun r => pks.contains r.pk)

/-- `JupyterCacheBase.list_unexecuted` (main.py lines 488-501): keep the
project records whose notebook, re-read and hashed, has no cache record.
`read` models `get_project_notebook(uri).nb` (it may raise `NbReadError`). -/
def list_unexecuted_go (read : String → Except CacheError Notebook)
    (cacheRecords : List NbCacheRecord) :
    List NbProjectRecord → Except CacheError (List NbProjectRecord)
  | [] => .ok []
  | r :: rest =>
    match read r.uri with
    | .error e => .error e
    | .ok nb =>
      match create_hashed_notebook nb DEFAULT_NB_METADATA none with
      | .error e => .error e
      | .ok (_, hashkey) =>
        match list_unexecuted_go read cacheRecords rest with
        | .error e => .error e
        | .ok tail =>
          if cacheRecords.any (fun c => c.hashkey == hashkey) then
            .ok tail
          else
            .ok (r :: tail)

/-- `JupyterCacheBase.list_unexecuted` (main.py lines 488-501), body above. -/
def list_unexecuted (filter_uris : Option (List String))
    (filter_pks : Option (List Nat)) (projects : List NbProjectRecord)
    (read : String → Except CacheError Notebook)
    (cacheRecords : List NbCacheRecord) :
    Except CacheError (List NbProjectRecord) :=
  list_unexecuted_go read cacheRecords (list_project_records filter_uris filter_pks projects)

/-- `JupyterExecutorAbstract.get_records` (executors/base.py lines 64-83):
select all filtered project records when `force`, else the unexecuted
ones; when `clear_tracebacks`, null the tracebacks of the selected pks
(`NbProjectRecord.remove_tracebacks`, db.py lines 255-261) before
returning.  Returns the selection and the updated project table. -/
def get_records (filter_uris : Option (List String))
    (filter_pks : Option (List Nat)) (clear_tracebacks force : Bool)
    (projects : List NbProjectRecord)
    (read : String → Except CacheError Notebook)
    (cacheRecords : List NbCacheRecord) :
    Except CacheError (List NbProjectRecord × List NbProjectRecord) :=
  match (if force then
      .ok (list_project_records filter_uris filter_pks projects)
    else
      list_unexecuted filter_uris filter_pks projects read cacheRecords) with
  | .error e => .error e
  | .ok execute_records =>
    let projects1 :=
      if clear_tracebacks then
        projects.map (fun r =>
          if (execute_records.map (fun e => e.pk)).contains r.pk then
            { r with traceback := none }
          else r)
      else projects
    .ok (execute_records, projects1)

/-- The record selection of `JupyterExecutorLocalSerial.run_and_cache`
(executors/basic.py lines 203-205): `get_records(..., clear_tracebacks=True,
force=force)`. -/
def serialSelection (filter_uris : Option (List String))
    (filter_pks : Option (List Nat)) (force : Bool)
    (projects : List NbProjectRecord)
    (read : String → Except CacheError Notebook)
    (cacheRecords : List NbCacheRecord) :
    Except CacheError (List NbProjectRecord × List NbProjectRecord) :=
  get_records filter_uris filter_pks true force projects read cacheRecords

/-- The record selection of `JupyterExecutorLocalMproc.run_and_cache`
(executors/basic.py lines 244-246): `get_records(filter_uris, filter_pks,
clear_tracebacks=True)` — the `force` argument of `run_and_cache` is not
forwarded, so the default `force=False` is always used. -/
def mprocSelection (filter_uris : Option (List String))
    (filter_pks : Option (List Nat)) (force : Bool)
    (projects : List NbProjectRecord)
    (read : String → Except CacheError Notebook)
    (cacheRecords : List NbCacheRecord) :
    Except CacheError (List NbProjectRecord × List NbProjectRecord) :=
  let _ := force
  get_records filter_uris filter_pks true false projects read cacheRecords

/-- `ExecutionResult` (executors/utils.py lines 16-22). -/
structure ExecutionResult where
  nb : Notebook
  cwd : Option String
  time : Nat
  err : Option String
  exc_string : Option String
  deriving DecidableEq, Repr

/-- `single_nb_execution` (executors/utils.py lines 25-70), with the
in-kernel cell execution (`nbclient.execute`) supplied externally:
`cellError` is the `CellExecutionError`/`CellTimeoutError` it raised, if
any, `mutated` the notebook tree after in-place execution and `duration`
the wall-clock time.  On a cell error the formatted traceback is captured;
otherwise both `err` and `exc_string` are `None`.  (The
`metadata.execution` overrides of `timeout`/`allow_errors` do not affect
the recorded fields and are not modelled.) -/
def single_nb_execution (mutated : Notebook) (cwd : Option String)
    (duration : Nat) (cellError : Option String) : ExecutionResult :=
  { nb := mutated
    cwd := cwd
    time := duration
    err := cellError
    exc_string := cellError.map (fun e => String.append "Traceback: " e) }

/-- `create_cache_bundle` (executors/utils.py lines 85-105): artifacts are
the files found under `execdir` minus the initial `asset_files`, and only
when both `execdir` and `asset_files` are supplied; `globFiles` models
`Path(execdir).glob("**/*")` as (path, content) pairs. -/
def create_cache_bundle (project_nb : ProjectNb) (execdir : Option String)
    (asset_files : Option (List String)) (globFiles : List (String × String))
    (exec_time : Nat) (exec_tb : Option String) : CacheBundleIn :=
  { nb := project_nb.nb
    uri := project_nb.uri
    artifacts :=
      if execdir.isSome && asset_files.isSome then
        some (globFiles.filter (fun f => !((asset_files.getD []).contains f.1)))
      else none
    data := [("execution_seconds", exec_time)]
    traceback := exec_tb }

/-- The observable effects of one `ExecutionWorkerBase.__call__`
(executors/basic.py lines 48-95): the returned status code and uri, the
`NbProjectRecord.set_traceback` call made (uri, traceback), if any, and
the `cache_notebook_bundle` call made (bundle, check_validity, overwrite),
if any. -/
structure WorkerCallResult where
  code : Nat
  uri : String
  setTracebackCall : Option (String × Option String)
  cacheCall : Option (CacheBundleIn × Bool × Bool)
  deriving DecidableEq, Repr

/-- `ExecutionWorkerBase.__call__` (executors/basic.py lines 48-95).
`fetch` models `data.cache.get_project_notebook(data.pk)`, `execute` the
worker's `execute` method (which may raise), and `ingest` the
`cache_notebook_bundle` call (which may raise).  Any failure is caught
and downgraded to status code 2; a cell error gives status 1 after
storing the traceback; success gives status 0 after caching with
`check_validity=False, overwrite=True`.  `create_cache_bundle` receives
`asset_files=None` (basic.py line 83) and the notebook tree mutated in
place by execution. -/
def executionWorkerCall (fetch : Except Unit ProjectNb)
    (execute : ProjectNb → Except Unit ExecutionResult)
    (ingest : CacheBundleIn → Bool → Bool → Except Unit Unit)
    (globFiles : List (String × String)) (uri : String) : WorkerCallResult :=
  match fetch with
  | .error _ => ⟨2, uri, none, none⟩
  | .ok project_nb =>
    match execute project_nb with
    | .error _ => ⟨2, uri, none, none⟩
    | .ok result =>
      match result.err with
      | some _ => ⟨1, uri, some (project_nb.uri, result.exc_string), none⟩
      | none =>
        let bundle := create_cache_bundle { project_nb with nb := result.nb }
          result.cwd none globFiles result.time result.exc_string
        match ingest bundle false true with
        | .error _ => ⟨2, uri, none, some (bundle, false, true)⟩
        | .ok _ => ⟨0, uri, none, some (bundle, false, true)⟩

/-- `ExecutorRunResult` (executors/base.py lines 22-43). -/
structure ExecutorRunResult where
  succeeded : List String
  excepted : List String
  errored : List String
  deriving DecidableEq, Repr

/-- `ExecutorRunResult.all` (executors/base.py lines 33-35). -/
def ExecutorRunResult.allUris (res : ExecutorRunResult) : List String :=
  res.succeeded ++ res.excepted ++ res.errored

/-- The result assembly of `JupyterExecutorLocalSerial.run_and_cache`
(executors/basic.py lines 209-220): run the worker on every selected
record in order and partition the (code, uri) pairs by status code. -/
def run_and_cache_serial (records : List NbProjectRecord)
    (runOne : NbProjectRecord → WorkerCallResult) : ExecutorRunResult :=
  let results := records.map (fun r => ((runOne r).code, (runOne r).uri))
  { succeeded := (results.filter (fun p => p.1 == 0)).map (fun p => p.2)
    excepted := (results.filter (fun p => p.1 == 1)).map (fun p => p.2)
    errored := (results.filter (fun p => p.1 == 2)).map (fun p => p.2) }

/-! ## Well-formedness of the cache state

The invariants every reachable state of the store satisfies: distinct pks
below the autoincrement counter, distinct fingerprints (the `hashkey`
column is `unique`), distinct `accessed` stamps below the clock (the
clock is strictly monotone), every record's directory on disk, distinct
disk directories, and a positive cache limit
(`change_cache_limit` asserts `size > 0`, main.py line 118). -/

def WF (s : CacheState) : Prop :=
  (s.records.map (fun r => r.pk)).Nodup ∧
  (s.records.map (fun r => r.hashkey)).Nodup ∧
  (s.records.map (fun r => r.accessed)).Nodup ∧
  (∀ r ∈ s.records, diskContains s r.hashkey = true) ∧
  (∀ r ∈ s.records, r.accessed < s.time ∧ r.pk < s.nextPk) ∧
  (s.disk.map (fun d => d.fp)).Nodup ∧
  0 < get_cache_limit s

instance (s : CacheState) : Decidable (WF s) := by
  unfold WF; infer_instance

/-! ## Generic list lemmas -/

theorem find?_eq_of_mem_nodup {α β : Type} [DecidableEq β] (f : α → β) (p : β)
    (l : List α) (a : α) (hnd : (l.map f).Nodup) (ha : a ∈ l) (hfa : f a = p) :
    l.find? (fun x => f x == p) = some a := by
  induction l with
  | nil => cases ha
  | cons x xs ih =>
    rcases List.mem_cons.mp ha with rfl | hmem
    · rw [List.find?_cons_of_pos _ (by simp [hfa])]
    · have hx : f x ≠ p := by
        intro h
        have : f a ∈ xs.map f := List.mem_map_of_mem f hmem
        rw [hfa, ← h] at this
        exact (List.nodup_cons.mp hnd).1 this
      rw [List.find?_cons_of_neg _ (by simp [hx])]
      exact ih (List.nodup_cons.mp hnd).2 hmem

/-! ## Claim C10: `get_cache_bundle` touches before the disk-existence check -/

/-- **C10**: for a pk whose cache record exists but whose notebook file is
missing on disk, `get_cache_bundle` raises `KeyError`, yet the state it
leaves behind already carries the updated `accessed` stamp: the touch is
performed before the disk-existence check, so the error path is not
state-preserving. -/
theorem claim10_get_cache_bundle_touch_before_check
    (pk : Nat) (s : CacheState) (record : NbCacheRecord)
    (hfind : s.records.find? (fun r => r.pk == pk) = some record)
    (hdisk : diskFind (touchRecord pk s) record.hashkey = none) :
    get_cache_bundle pk s =
      .error (CacheError.keyError "Notebook file does not exist for cache record PK",
        touchRecord pk s) ∧
    (touchRecord pk s).records.find? (fun r => r.pk == pk) =
      some { record with accessed := s.time } ∧
    touchRecord pk s ≠ s := by
  refine ⟨?_, ?_, ?_⟩
  · simp only [get_cache_bundle, hfind]
    simp only [hdisk]
  · have hpk : (record.pk == pk) = true := by
      have := List.find?_some hfind
      simpa using this
    have : (touchRecord pk s).records =
        s.records.map (fun r => if r.pk == pk then { r with accessed := s.time } else r) := rfl
    rw [this, List.find?_map]
    have hcomp :
        ((fun r : NbCacheRecord => r.pk == pk) ∘
          fun r => if r.pk == pk then { r with accessed := s.time } else r) =
        fun r : NbCacheRecord => r.pk == pk := by
      funext r
      by_cases h : r.pk = pk <;> simp [h]
    rw [hcomp, hfind]
    have hpk' : record.pk = pk := by simpa using hpk
    simp [hpk']
  · intro h
    have := congrArg CacheState.time h
    simp [touchRecord] at this

/-- Witness for C10: a one-record store whose notebook directory is
absent from disk. -/
theorem claim10_witness :
    (let rec0 : NbCacheRecord :=
      { pk := 1, hashkey := { nbformat := 4, nbformat_minor := 4, metadata := [], cells := [] },
        uri := "a.ipynb", description := "", data := [], created := 0, accessed := 0 }
     let s0 : CacheState :=
      { records := [rec0], disk := [], nextPk := 2, cache_limit_setting := none, time := 5 }
     get_cache_bundle 1 s0 =
        .error (CacheError.keyError "Notebook file does not exist for cache record PK",
          touchRecord 1 s0) ∧
      (touchRecord 1 s0).records.find? (fun r => r.pk == 1) =
        some { rec0 with accessed := 5 } ∧
      touchRecord 1 s0 ≠ s0) :=
  claim10_get_cache_bundle_touch_before_check 1 _ _ (by decide) (by decide)

/-! ## Concrete fixtures used by witnesses -/

/-- A sample executed code cell. -/
def sampleCodeCell : Cell :=
  { cell_type := "code", source := "print(1)", metadata := [],
    execution_count := some 1, outputs := ["1"], id := some "aa" }

/-- A sample notebook with one code cell. -/
def sampleNb : Notebook :=
  { nbformat := 4, nbformat_minor := 4,
    metadata := [("kernelspec", "python3")], cells := [sampleCodeCell] }

/-- The fingerprint of `sampleNb` under the default allow-lists. -/
def sampleFp : Fingerprint :=
  { nbformat := 4, nbformat_minor := 4,
    metadata := [("kernelspec", "python3")],
    cells := [{ cell_type := "code", source := "print(1)", metadata := [],
                execution_count := none, outputs := [] }] }

/-- A registered project notebook with a stale traceback. -/
def c7Project : NbProjectRecord :=
  { pk := 1, uri := "nb.ipynb", assets := [], traceback := some "old traceback" }

/-- A reader for the project: `nb.ipynb` reads as `sampleNb`. -/
def c7Read : String → Except CacheError Notebook := fun u =>
  if u == "nb.ipynb" then .ok sampleNb else .error (.nbReadError "unknown uri")

/-- A cache record for `sampleNb`'s fingerprint: the project notebook is
already cached. -/
def c7CacheRecord : NbCacheRecord :=
  { pk := 7, hashkey := sampleFp, uri := "nb.ipynb", description := "",
    data := [], created := 0, accessed := 0 }

/-! ## Claim C7: executor record selection and traceback clearing -/

/-- **C7**: the claim says every executor invocation (serial or parallel)
selects all filtered project records when `force=true`.  The serial
executor does (`run_and_cache` forwards `force` to `get_records`), but
`JupyterExecutorLocalMproc.run_and_cache` (basic.py lines 244-246) does
not forward `force`, so the parallel executor always selects
`list_unexecuted`: invoked with `force=true` on a project whose single
(already cached) notebook should be re-executed, it selects nothing,
while the claimed selection — all filtered project records — is
non-empty.  The serial path, including the traceback clearing of the
selected records, behaves as claimed. -/
theorem claim7_mproc_drops_force :
    mprocSelection none none true [c7Project] c7Read [c7CacheRecord] =
      .ok ([], [c7Project]) ∧
    serialSelection none none true [c7Project] c7Read [c7CacheRecord] =
      .ok ([c7Project], [{ c7Project with traceback := none }]) ∧
    list_project_records none none [c7Project] = [c7Project] := by
  refine ⟨?_, ?_, ?_⟩ <;> rfl

/-! ## Claim C8: contents of the bundle ingested by a successful worker -/

/-- The project notebook handed to the worker fixtures. -/
def c8ProjectNb : ProjectNb :=
  { pk := 1, uri := "nb.ipynb", nb := sampleNb, assets := [] }

/-- A successful sandboxed execution result (no cell error). -/
def c8Result : ExecutionResult :=
  single_nb_execution sampleNb (some "/tmp/sandbox") 3 none

/-- **C8 counterexample**: a sandboxed worker succeeds while its working
directory holds a newly created file `out.png` (initial asset set empty).
The claim says the ingested bundle carries the artifact files newly
present in the working directory; the code passes `asset_files=None` to
`create_cache_bundle` (basic.py line 83, "TODO deal with artifact
retrieval"), so the bundle's artifacts are `None`, not the new files. -/
theorem claim8_counterexample :
    (executionWorkerCall (.ok c8ProjectNb) (fun _ => .ok c8Result)
        (fun _ _ _ => .ok ()) [("out.png", "png-bytes")] "nb.ipynb").cacheCall =
      some ({ nb := sampleNb, uri := "nb.ipynb", artifacts := none,
              data := [("execution_seconds", 3)], traceback := none }, false, true) ∧
    (none : Option (List (String × String))) ≠ some [("out.png", "png-bytes")] :=
  ⟨rfl, by decide⟩

/-- **C8 amended**: for every worker whose cell execution succeeds, the
cache bundle it ingests (with `check_validity=false`, `overwrite=true`)
contains the mutated notebook tree, extra data
`{execution_seconds: duration}`, a null traceback — and artifacts `None`
for all workers, sandboxed or in-place (artifact collection is
unimplemented; `asset_files=None` is always passed). -/
theorem claim8_amended_bundle (pnb : ProjectNb) (mutated : Notebook)
    (cwd : Option String) (dur : Nat)
    (ingest : CacheBundleIn → Bool → Bool → Except Unit Unit)
    (glob : List (String × String)) (uri : String)
    (hok : ingest { nb := mutated, uri := pnb.uri, artifacts := none,
                    data := [("execution_seconds", dur)], traceback := none }
        false true = .ok ()) :
    executionWorkerCall (.ok pnb)
        (fun _ => .ok (single_nb_execution mutated cwd dur none)) ingest glob uri =
      ⟨0, uri, none,
        some ({ nb := mutated, uri := pnb.uri, artifacts := none,
                data := [("execution_seconds", dur)], traceback := none }, false, true)⟩ := by
  have hbundle : create_cache_bundle { pnb with nb := mutated } cwd none glob dur none =
      { nb := mutated, uri := pnb.uri, artifacts := none,
        data := [("execution_seconds", dur)], traceback := none } := by
    simp [create_cache_bundle]
  simp only [executionWorkerCall, single_nb_execution, Option.map_none', hbundle, hok]

/-- Witness for C8 amended, at the sandboxed fixture. -/
theorem claim8_amended_bundle_witness :
    ((fun _ _ _ => (.ok () : Except Unit Unit))
        ({ nb := sampleNb, uri := "nb.ipynb", artifacts := none,
           data := [("execution_seconds", 3)],
           traceback := none } : CacheBundleIn) false true = .ok ()) ∧
    executionWorkerCall (.ok c8ProjectNb)
        (fun _ => .ok (single_nb_execution sampleNb (some "/tmp/sandbox") 3 none))
        (fun _ _ _ => .ok ()) [("out.png", "png-bytes")] "nb.ipynb" =
      ⟨0, "nb.ipynb", none,
        some ({ nb := sampleNb, uri := "nb.ipynb", artifacts := none,
                data := [("execution_seconds", 3)], traceback := none }, false, true)⟩ :=
  ⟨rfl, claim8_amended_bundle c8ProjectNb sampleNb (some "/tmp/sandbox") 3
    (fun _ _ _ => .ok ()) [("out.png", "png-bytes")] "nb.ipynb" rfl⟩

/-! ## Claim C9: worker outcome classification and batch isolation -/

theorem perm_cons_middle2 {α : Type} (a : α) (A B C : List α) :
    (A ++ (a :: B) ++ C).Perm (a :: (A ++ B ++ C)) := by
  have h1 : A ++ (a :: B) ++ C = A ++ a :: (B ++ C) := by
    simp [List.append_assoc]
  have h2 : a :: (A ++ B ++ C) = a :: (A ++ (B ++ C)) := by
    simp [List.append_assoc]
  rw [h1, h2]
  exact List.perm_middle

theorem perm_cons_middle3 {α : Type} (a : α) (A B C : List α) :
    (A ++ B ++ (a :: C)).Perm (a :: (A ++ B ++ C)) := by
  have : ((A ++ B) ++ a :: C).Perm (a :: ((A ++ B) ++ C)) := List.perm_middle
  simpa using this

theorem partition3_perm (l : List (Nat × String))
    (h : ∀ p ∈ l, p.1 = 0 ∨ p.1 = 1 ∨ p.1 = 2) :
    ((l.filter (fun p => p.1 == 0)).map Prod.snd ++
      (l.filter (fun p => p.1 == 1)).map Prod.snd ++
      (l.filter (fun p => p.1 == 2)).map Prod.snd).Perm (l.map Prod.snd) := by
  induction l with
  | nil => simp
  | cons p tl ih =>
    have hp := h p (List.mem_cons_self p tl)
    have htl := ih (fun q hq => h q (List.mem_cons_of_mem p hq))
    rcases hp with h0 | h1 | h2
    · rw [List.filter_cons_of_pos (by simp [h0]),
        List.filter_cons_of_neg (by simp [h0]),
        List.filter_cons_of_neg (by simp [h0]), List.map_cons, List.map_cons]
      simpa using htl.cons p.2
    · rw [List.filter_cons_of_neg (by simp [h1]),
        List.filter_cons_of_pos (by simp [h1]),
        List.filter_cons_of_neg (by simp [h1]), List.map_cons, List.map_cons]
      exact (perm_cons_middle2 _ _ _ _).trans (htl.cons _)
    · rw [List.filter_cons_of_neg (by simp [h2]),
        List.filter_cons_of_neg (by simp [h2]),
        List.filter_cons_of_pos (by simp [h2]), List.map_cons, List.map_cons]
      exact (perm_cons_middle3 _ _ _ _).trans (htl.cons _)

/-- Every worker call returns one of the three status codes of
`ExecutionWorkerBase.__call__`. -/
theorem executionWorkerCall_code_cases (fetch : Except Unit ProjectNb)
    (execute : ProjectNb → Except Unit ExecutionResult)
    (ingest : CacheBundleIn → Bool → Bool → Except Unit Unit)
    (glob : List (String × String)) (uri : String) :
    (executionWorkerCall fetch execute ingest glob uri).code = 0 ∨
    (executionWorkerCall fetch execute ingest glob uri).code = 1 ∨
    (executionWorkerCall fetch execute ingest glob uri).code = 2 := by
  rcases fetch with e | pnb
  · right; right; rfl
  · rcases hexec : execute pnb with e | result
    · right; right; simp [executionWorkerCall, hexec]
    · rcases herr : result.err with _ | e
      · rcases hing : ingest (create_cache_bundle { pnb with nb := result.nb } result.cwd
            none glob result.time result.exc_string) false true with e | u
        · right; right; simp [executionWorkerCall, hexec, herr, hing]
        · left; simp [executionWorkerCall, hexec, herr, hing]
      · right; left; simp [executionWorkerCall, hexec, herr]

/-- Every worker call reports the uri it was dispatched with. -/
theorem executionWorkerCall_uri (fetch : Except Unit ProjectNb)
    (execute : ProjectNb → Except Unit ExecutionResult)
    (ingest : CacheBundleIn → Bool → Bool → Except Unit Unit)
    (glob : List (String × String)) (uri : String) :
    (executionWorkerCall fetch execute ingest glob uri).uri = uri := by
  rcases fetch with e | pnb
  · rfl
  · rcases hexec : execute pnb with e | result
    · simp [executionWorkerCall, hexec]
    · rcases herr : result.err with _ | e
      · rcases hing : ingest (create_cache_bundle { pnb with nb := result.nb } result.cwd
            none glob result.time result.exc_string) false true with e | u <;>
          simp [executionWorkerCall, hexec, herr, hing]
      · simp [executionWorkerCall, hexec, herr]

/-- **C9**: the outcome classification of a worker run, and batch
isolation.  A failing `get_project_notebook` or a raising `execute` gives
status 2 (`errored`) with no traceback stored and nothing cached; a cell
error or timeout (`result.err` set) gives status 1 (`excepted`) with the
formatted traceback stored via `set_traceback` and nothing cached; a
failing ingest gives status 2 with no traceback stored; otherwise
status 0 (`succeeded`).  And since every worker call returns a status
rather than propagating, the serial batch processes every selected
record: the three outcome lists of `run_and_cache` together are a
permutation of the selected uris. -/
theorem claim9_worker_outcomes (fetch : Except Unit ProjectNb)
    (execute : ProjectNb → Except Unit ExecutionResult)
    (ingest : CacheBundleIn → Bool → Bool → Except Unit Unit)
    (glob : List (String × String)) (uri : String) :
    (fetch = .error () →
      executionWorkerCall fetch execute ingest glob uri = ⟨2, uri, none, none⟩) ∧
    (∀ pnb, fetch = .ok pnb → execute pnb = .error () →
      executionWorkerCall fetch execute ingest glob uri = ⟨2, uri, none, none⟩) ∧
    (∀ pnb result e, fetch = .ok pnb → execute pnb = .ok result → result.err = some e →
      executionWorkerCall fetch execute ingest glob uri =
        ⟨1, uri, some (pnb.uri, result.exc_string), none⟩) ∧
    (∀ pnb result, fetch = .ok pnb → execute pnb = .ok result → result.err = none →
      ingest (create_cache_bundle { pnb with nb := result.nb } result.cwd none glob
          result.time result.exc_string) false true = .error () →
      executionWorkerCall fetch execute ingest glob uri =
        ⟨2, uri, none,
          some (create_cache_bundle { pnb with nb := result.nb } result.cwd none glob
            result.time result.exc_string, false, true)⟩) ∧
    (∀ pnb result, fetch = .ok pnb → execute pnb = .ok result → result.err = none →
      ingest (create_cache_bundle { pnb with nb := result.nb } result.cwd none glob
          result.time result.exc_string) false true = .ok () →
      executionWorkerCall fetch execute ingest glob uri =
        ⟨0, uri, none,
          some (create_cache_bundle { pnb with nb := result.nb } result.cwd none glob
            result.time result.exc_string, false, true)⟩) ∧
    (∀ (records : List NbProjectRecord)
        (fetchR : NbProjectRecord → Except Unit ProjectNb)
        (executeR : NbProjectRecord → ProjectNb → Except Unit ExecutionResult)
        (ingestR : NbProjectRecord → CacheBundleIn → Bool → Bool → Except Unit Unit)
        (globR : NbProjectRecord → List (String × String)),
      (run_and_cache_serial records (fun r =>
        executionWorkerCall (fetchR r) (executeR r) (ingestR r) (globR r) r.uri)).allUris.Perm
        (records.map (fun r => r.uri))) := by
  refine ⟨?_, ?_, ?_, ?_, ?_, ?_⟩
  · intro hf; simp [executionWorkerCall, hf]
  · intro pnb hf he; simp [executionWorkerCall, hf, he]
  · intro pnb result e hf he herr
    simp [executionWorkerCall, hf, he, herr]
  · intro pnb result hf he herr hing
    simp [executionWorkerCall, hf, he, herr, hing]
  · intro pnb result hf he herr hing
    simp [executionWorkerCall, hf, he, herr, hing]
  · intro records fetchR executeR ingestR globR
    unfold run_and_cache_serial ExecutorRunResult.allUris
    have hmap : (records.map (fun r =>
        ((executionWorkerCall (fetchR r) (executeR r) (ingestR r) (globR r) r.uri).code,
          (executionWorkerCall (fetchR r) (executeR r) (ingestR r) (globR r) r.uri).uri))).map
          Prod.snd = records.map (fun r => r.uri) := by
      rw [List.map_map]
      exact List.map_congr_left (fun r _ =>
        executionWorkerCall_uri (fetchR r) (executeR r) (ingestR r) (globR r) r.uri)
    have hcodes : ∀ p ∈ records.map (fun r =>
        ((executionWorkerCall (fetchR r) (executeR r) (ingestR r) (globR r) r.uri).code,
          (executionWorkerCall (fetchR r) (executeR r) (ingestR r) (globR r) r.uri).uri)),
        p.1 = 0 ∨ p.1 = 1 ∨ p.1 = 2 := by
      intro p hp
      obtain ⟨r, _, rfl⟩ := List.mem_map.mp hp
      exact executionWorkerCall_code_cases (fetchR r) (executeR r) (ingestR r) (globR r) r.uri
    exact hmap ▸ partition3_perm _ hcodes

/-- Witness for C9: the excepted branch at a concrete cell error, via the
theorem's third conjunct. -/
theorem claim9_witness :
    ((.ok c8ProjectNb : Except Unit ProjectNb) = .ok c8ProjectNb) ∧
    executionWorkerCall (.ok c8ProjectNb)
        (fun _ => .ok (single_nb_execution sampleNb (some "/tmp/sandbox") 3 (some "ZeroDivisionError")))
        (fun _ _ _ => .ok ()) [] "nb.ipynb" =
      ⟨1, "nb.ipynb", some ("nb.ipynb", some "Traceback: ZeroDivisionError"), none⟩ :=
  ⟨rfl, by
    have h := (claim9_worker_outcomes (.ok c8ProjectNb)
      (fun _ => .ok (single_nb_execution sampleNb (some "/tmp/sandbox") 3 (some "ZeroDivisionError")))
      (fun _ _ _ => .ok ()) [] "nb.ipynb").2.2.1 c8ProjectNb
      (single_nb_execution sampleNb (some "/tmp/sandbox") 3 (some "ZeroDivisionError"))
      "ZeroDivisionError" rfl rfl rfl
    exact h⟩

/-! ## Claim C1: canonical equivalence and distinction of the fingerprint -/

/-- Two cells agree on everything the hashing projection retains:
`cell_type`, `source` and the allow-listed metadata.  Execution counts,
outputs and `id` fields are free. -/
def CellProjEq (cell_metadata : Option (List String)) (c c' : Cell) : Prop :=
  c.cell_type = c'.cell_type ∧ c.source = c'.source ∧
  filterMeta cell_metadata c.metadata = filterMeta cell_metadata c'.metadata

/-- Two notebooks differ only in what the cache ignores: non-code cells,
code-cell `id`s, execution counts, outputs, notebook metadata outside the
allow-list and cell metadata outside the cell allow-list.  (Both carry the
same major format version; the minor version is free.) -/
def EquivNotebooks (nb_metadata cell_metadata : Option (List String))
    (nb nb' : Notebook) : Prop :=
  nb.nbformat = nb'.nbformat ∧
  filterMeta nb_metadata nb.metadata = filterMeta nb_metadata nb'.metadata ∧
  List.Forall₂ (CellProjEq cell_metadata) (codeCells nb) (codeCells nb')

theorem filter_code_idem (cells : List Cell) :
    (cells.filter (fun c => c.cell_type == "code")).filter (fun c => c.cell_type == "code") =
      cells.filter (fun c => c.cell_type == "code") := by
  induction cells with
  | nil => rfl
  | cons c rest ih =>
    by_cases h : c.cell_type = "code"
    · simp [List.filter_cons, h, ih]
    · simp [List.filter_cons, h, ih]

/-- `create_hashed_notebook` in closed form on accepted notebooks. -/
theorem create_hashed_notebook_eq (nb : Notebook)
    (nbMeta cellMeta : Option (List String)) (h : nb.nbformat_minor ≤ 5) :
    create_hashed_notebook nb nbMeta cellMeta =
      .ok ({ nb with cells := nb.cells.filter (fun c => c.cell_type == "code") },
        { nbformat := nb.nbformat, nbformat_minor := 4,
          metadata := filterMeta nbMeta nb.metadata,
          cells := (nb.cells.filter (fun c => c.cell_type == "code")).map (cellProj cellMeta) }) := by
  have h5 : ¬ nb.nbformat_minor > 5 := Nat.not_lt.mpr h
  simp only [create_hashed_notebook, nbf_convert, h5, if_false]
  rw [filter_code_idem]

theorem create_hashed_notebook_ok_minor {nb : Notebook}
    {nbMeta cellMeta : Option (List String)} {a : Notebook} {fp : Fingerprint}
    (h : create_hashed_notebook nb nbMeta cellMeta = .ok (a, fp)) :
    nb.nbformat_minor ≤ 5 := by
  by_contra h5
  simp only [create_hashed_notebook, nbf_convert, Nat.lt_of_not_le h5 ] at h
  have h5' : nb.nbformat_minor > 5 := Nat.lt_of_not_le h5
  simp [h5'] at h

/-- The fingerprint determines the code cells' sources. -/
theorem fingerprint_sources {nb : Notebook}
    {nbMeta cellMeta : Option (List String)} {a : Notebook} {fp : Fingerprint}
    (h : create_hashed_notebook nb nbMeta cellMeta = .ok (a, fp)) :
    fp.cells.map (fun hc => hc.source) = (codeCells nb).map (fun c => c.source) := by
  rw [create_hashed_notebook_eq nb nbMeta cellMeta (create_hashed_notebook_ok_minor h)] at h
  injection h with h1
  injection h1 with ha hfp
  subst hfp
  rw [List.map_map]
  rfl

/-- The fingerprint determines the code cells' retained metadata. -/
theorem fingerprint_cell_metadata {nb : Notebook}
    {nbMeta cellMeta : Option (List String)} {a : Notebook} {fp : Fingerprint}
    (h : create_hashed_notebook nb nbMeta cellMeta = .ok (a, fp)) :
    fp.cells.map (fun hc => hc.metadata) =
      (codeCells nb).map (fun c => filterMeta cellMeta c.metadata) := by
  rw [create_hashed_notebook_eq nb nbMeta cellMeta (create_hashed_notebook_ok_minor h)] at h
  injection h with h1
  injection h1 with ha hfp
  subst hfp
  rw [List.map_map]
  rfl

theorem forall₂_map_cellProj (cellMeta : Option (List String)) {l l' : List Cell}
    (h : List.Forall₂ (CellProjEq cellMeta) l l') :
    l.map (cellProj cellMeta) = l'.map (cellProj cellMeta) := by
  induction h with
  | nil => rfl
  | cons hc _ ih =>
    simp only [List.map_cons, ih, List.cons.injEq, and_true]
    obtain ⟨h1, h2, h3⟩ := hc
    simp [cellProj, h1, h2, h3]

/-- **C1**: (i) notebooks that differ only in non-code cells, code-cell
`id`s, non-allow-listed metadata, execution counts or outputs receive the
same fingerprint from `create_hashed_notebook`; (ii) changing any code
cell's source changes the fingerprint; (iii) changing any code cell's
retained (allow-listed) metadata changes the fingerprint.  (Fingerprints
are compared as canonical projections; MD5 of the stable serialization is
a function of the projection and is treated as collision-free.) -/
theorem claim1_canonical_fingerprint (nb nb' : Notebook)
    (nbMeta cellMeta : Option (List String)) :
    (nb.nbformat_minor ≤ 5 → nb'.nbformat_minor ≤ 5 →
      EquivNotebooks nbMeta cellMeta nb nb' →
      ∃ a a' fp, create_hashed_notebook nb nbMeta cellMeta = .ok (a, fp) ∧
        create_hashed_notebook nb' nbMeta cellMeta = .ok (a', fp)) ∧
    (∀ a fp a' fp', create_hashed_notebook nb nbMeta cellMeta = .ok (a, fp) →
      create_hashed_notebook nb' nbMeta cellMeta = .ok (a', fp') →
      (codeCells nb).map (fun c => c.source) ≠ (codeCells nb').map (fun c => c.source) →
      fp ≠ fp') ∧
    (∀ a fp a' fp', create_hashed_notebook nb nbMeta cellMeta = .ok (a, fp) →
      create_hashed_notebook nb' nbMeta cellMeta = .ok (a', fp') →
      (codeCells nb).map (fun c => filterMeta cellMeta c.metadata) ≠
        (codeCells nb').map (fun c => filterMeta cellMeta c.metadata) →
      fp ≠ fp') := by
  refine ⟨?_, ?_, ?_⟩
  · intro h5 h5' hequiv
    obtain ⟨hfmt, hmeta, hcells⟩ := hequiv
    have hc : (nb.cells.filter (fun c => c.cell_type == "code")).map (cellProj cellMeta) =
        (nb'.cells.filter (fun c => c.cell_type == "code")).map (cellProj cellMeta) :=
      forall₂_map_cellProj cellMeta hcells
    refine ⟨{ nb with cells := nb.cells.filter (fun c => c.cell_type == "code") },
      { nb' with cells := nb'.cells.filter (fun c => c.cell_type == "code") },
      { nbformat := nb.nbformat, nbformat_minor := 4,
        metadata := filterMeta nbMeta nb.metadata,
        cells := (nb.cells.filter (fun c => c.cell_type == "code")).map (cellProj cellMeta) },
      create_hashed_notebook_eq nb nbMeta cellMeta h5, ?_⟩
    rw [create_hashed_notebook_eq nb' nbMeta cellMeta h5']
    simp only [Except.ok.injEq, Prod.mk.injEq, HashNb.mk.injEq]
    exact ⟨trivial, hfmt.symm, trivial, hmeta.symm, hc.symm⟩
  · intro a fp a' fp' h h' hsrc heq
    exact hsrc ((fingerprint_sources h).symm.trans (heq ▸ fingerprint_sources h'))
  · intro a fp a' fp' h h' hmeta heq
    exact hmeta ((fingerprint_cell_metadata h).symm.trans (heq ▸ fingerprint_cell_metadata h'))

/-- Witness for C1: a notebook with a markdown cell, an executed code cell
(with outputs, an id and an extra notebook-metadata key) is
fingerprint-equivalent to its stripped counterpart. -/
theorem claim1_witness :
    (let nbA : Notebook :=
      { nbformat := 4, nbformat_minor := 5,
        metadata := [("kernelspec", "py3"), ("authors", "x")],
        cells :=
          [{ cell_type := "markdown", source := "# title", metadata := [],
             execution_count := none, outputs := [], id := some "m1" },
           { cell_type := "code", source := "print(1)", metadata := [("tags", "t")],
             execution_count := some 3, outputs := ["1"], id := some "c1" }] }
     let nbB : Notebook :=
      { nbformat := 4, nbformat_minor := 4,
        metadata := [("kernelspec", "py3")],
        cells :=
          [{ cell_type := "code", source := "print(1)", metadata := [("tags", "t")],
             execution_count := none, outputs := [], id := none }] }
     ∃ a a' fp, create_hashed_notebook nbA DEFAULT_NB_METADATA none = .ok (a, fp) ∧
       create_hashed_notebook nbB DEFAULT_NB_METADATA none = .ok (a', fp)) := by
  exact (claim1_canonical_fingerprint _ _ DEFAULT_NB_METADATA none).1
    (by decide) (by decide)
    ⟨rfl, by decide, List.Forall₂.cons ⟨rfl, rfl, by decide⟩ List.Forall₂.nil⟩

/-! ## Claim C2: the execution-count validity check -/

theorem range_map_some_shift (n : Nat) (ec : Int) :
    (List.range (n + 1)).map (fun k : Nat => some (ec + (k : Int))) =
      some ec :: (List.range n).map (fun k : Nat => some ((ec + 1) + (k : Int))) := by
  rw [List.range_succ_eq_map]
  simp only [List.map_cons, List.map_map]
  refine congrArg₂ List.cons (by simp) ?_
  refine List.map_congr_left ?_
  intro k hk
  simp only [Function.comp_apply, Option.some.injEq]
  push_cast
  omega

/-- The validation loop succeeds exactly when the code cells'
execution counts, in order, are `ec, ec+1, ec+2, …`. -/
theorem validateCells_ok_iff (uri : String) (cells : List Cell) (i : Nat) (ec : Int) :
    validateCells uri cells i ec = .ok () ↔
      (cells.filter (fun c => c.cell_type == "code")).map (fun c => c.execution_count) =
        (List.range (cells.filter (fun c => c.cell_type == "code")).length).map
          (fun k : Nat => some (ec + (k : Int))) := by
  induction cells generalizing i ec with
  | nil => simp [validateCells]
  | cons cell rest ih =>
    by_cases hcode : cell.cell_type = "code"
    · rw [List.filter_cons_of_pos (by simp [hcode])]
      by_cases hec : cell.execution_count = some ec
      · rw [show validateCells uri (cell :: rest) i ec = validateCells uri rest (i + 1) (ec + 1) by
          simp [validateCells, hcode, hec]]
        rw [ih (i + 1) (ec + 1), List.map_cons, List.length_cons, range_map_some_shift, hec]
        constructor
        · intro h; rw [h]
        · intro h; exact (List.cons.injEq _ _ _ _ ▸ h).2
      · rw [show validateCells uri (cell :: rest) i ec =
            .error (.nbValidityError i ec cell.execution_count uri) by
          simp [validateCells, hcode, hec]]
        rw [List.map_cons, List.length_cons, range_map_some_shift]
        constructor
        · intro h; cases h
        · intro h
          exact absurd (List.cons.injEq _ _ _ _ ▸ h).1 hec
    · rw [List.filter_cons_of_neg (by simp [hcode])]
      rw [show validateCells uri (cell :: rest) i ec = validateCells uri rest (i + 1) ec by
        simp [validateCells, hcode]]
      exact ih (i + 1) ec

/-- On failure, the validation loop reports the first offending code cell:
its enumeration index, the expected count (one more than the number of
code cells before it), its actual count, and the bundle's uri — and every
code cell before it carried the expected count. -/
theorem validateCells_error (uri : String) (cells : List Cell) (i : Nat) (ec : Int)
    (e : CacheError) (h : validateCells uri cells i ec = .error e) :
    ∃ j c, cells.get? j = some c ∧ c.cell_type = "code" ∧
      c.execution_count ≠
        some (ec + (((cells.take j).filter (fun x => x.cell_type == "code")).length : Int)) ∧
      e = .nbValidityError (i + j)
        (ec + (((cells.take j).filter (fun x => x.cell_type == "code")).length : Int))
        c.execution_count uri ∧
      (∀ j' c', j' < j → cells.get? j' = some c' → c'.cell_type = "code" →
        c'.execution_count =
          some (ec + (((cells.take j').filter (fun x => x.cell_type == "code")).length : Int))) := by
  induction cells generalizing i ec e with
  | nil => simp [validateCells] at h
  | cons cell rest ih =>
    by_cases hcode : cell.cell_type = "code"
    · by_cases hec : cell.execution_count = some ec
      · rw [show validateCells uri (cell :: rest) i ec = validateCells uri rest (i + 1) (ec + 1) by
          simp [validateCells, hcode, hec]] at h
        obtain ⟨j, c, hget, hc, hne, he, hbefore⟩ := ih (i + 1) (ec + 1) e h
        refine ⟨j + 1, c, hget, hc, ?_, ?_, ?_⟩
        · rw [List.take_succ_cons, List.filter_cons_of_pos (by simp [hcode]), List.length_cons]
          intro hcontra
          apply hne
          rw [hcontra]
          congr 1
          push_cast
          omega
        · rw [he, List.take_succ_cons, List.filter_cons_of_pos (by simp [hcode]), List.length_cons]
          congr 1
          · omega
          · push_cast; omega
        · intro j' c' hj' hget' hc'
          match j' with
          | 0 =>
            rw [List.get?_cons_zero] at hget'
            cases hget'
            simpa using hec
          | (j'' + 1) =>
            rw [List.get?_cons_succ] at hget'
            have := hbefore j'' c' (by omega) hget' hc'
            rw [this, List.take_succ_cons, List.filter_cons_of_pos (by simp [hcode]),
              List.length_cons]
            congr 1
            push_cast
            omega
      · rw [show validateCells uri (cell :: rest) i ec =
            .error (.nbValidityError i ec cell.execution_count uri) by
          simp [validateCells, hcode, hec]] at h
        refine ⟨0, cell, rfl, hcode, ?_, ?_, ?_⟩
        · simpa using hec
        · cases h; simp
        · intro j' c' hj'
          exact absurd hj' (Nat.not_lt_zero j')
    · rw [show validateCells uri (cell :: rest) i ec = validateCells uri rest (i + 1) ec by
        simp [validateCells, hcode]] at h
      obtain ⟨j, c, hget, hc, hne, he, hbefore⟩ := ih (i + 1) ec e h
      refine ⟨j + 1, c, hget, hc, ?_, ?_, ?_⟩
      · rwa [List.take_succ_cons, List.filter_cons_of_neg (by simp [hcode])]
      · rw [he, List.take_succ_cons, List.filter_cons_of_neg (by simp [hcode])]
        congr 1
        omega
      · intro j' c' hj' hget' hc'
        match j' with
        | 0 =>
          rw [List.get?_cons_zero] at hget'
          cases hget'
          exact absurd hc' hcode
        | (j'' + 1) =>
          rw [List.get?_cons_succ] at hget'
          have := hbefore j'' c' (by omega) hget' hc'
          rwa [List.take_succ_cons, List.filter_cons_of_neg (by simp [hcode])]

/-- **C2**: ingesting with `check_validity=true` succeeds only when the
code cells' execution counts, in order, are exactly `1, 2, …, n` (no gaps,
no nulls): (i) the validator accepts exactly those bundles; (ii) on
failure the error is an `NbValidityError` identifying the first offending
cell's enumeration index, the expected and actual counts and the bundle's
origin uri; (iii) a validity failure aborts `cache_notebook_bundle`
before anything is written — the error carries the untouched state. -/
theorem claim2_validity_check (bundle : CacheBundleIn) :
    (validate_nb_bundle bundle = .ok () ↔
      (codeCells bundle.nb).map (fun c => c.execution_count) =
        (List.range (codeCells bundle.nb).length).map
          (fun k : Nat => some (1 + (k : Int)))) ∧
    (∀ e, validate_nb_bundle bundle = .error e →
      ∃ j c, bundle.nb.cells.get? j = some c ∧ c.cell_type = "code" ∧
        c.execution_count ≠ some (1 +
          (((bundle.nb.cells.take j).filter (fun x => x.cell_type == "code")).length : Int)) ∧
        e = .nbValidityError j
          (1 + (((bundle.nb.cells.take j).filter (fun x => x.cell_type == "code")).length : Int))
          c.execution_count bundle.uri ∧
        (∀ j' c', j' < j → bundle.nb.cells.get? j' = some c' → c'.cell_type = "code" →
          c'.execution_count = some (1 +
            (((bundle.nb.cells.take j').filter (fun x => x.cell_type == "code")).length : Int)))) ∧
    (∀ e overwrite description s, validate_nb_bundle bundle = .error e →
      cache_notebook_bundle bundle true overwrite description s = .error (e, s)) := by
  refine ⟨?_, ?_, ?_⟩
  · exact validateCells_ok_iff bundle.uri bundle.nb.cells 0 1
  · intro e h
    obtain ⟨j, c, hget, hc, hne, he, hbefore⟩ :=
      validateCells_error bundle.uri bundle.nb.cells 0 1 e h
    exact ⟨j, c, hget, hc, hne, by rwa [Nat.zero_add] at he, hbefore⟩
  · intro e overwrite description s h
    simp [cache_notebook_bundle, h]

/-- An incorrectly executed bundle: execution counts 1, 3. -/
def c2BadBundle : CacheBundleIn :=
  { nb :=
      { nbformat := 4, nbformat_minor := 4, metadata := []
        cells :=
          [{ cell_type := "code", source := "a", metadata := [],
             execution_count := some 1, outputs := [], id := none },
           { cell_type := "code", source := "b", metadata := [],
             execution_count := some 3, outputs := [], id := none }] }
    uri := "u.ipynb", artifacts := none, data := [], traceback := none }

/-- An empty cache state. -/
def emptyState : CacheState :=
  { records := [], disk := [], nextPk := 1, cache_limit_setting := none, time := 0 }

/-- Witness for C2: the bundle with counts (1, 3) is rejected at cell
index 1 (expected 2, got 3) and the state is untouched. -/
theorem claim2_witness :
    validate_nb_bundle c2BadBundle = .error (.nbValidityError 1 2 (some 3) "u.ipynb") ∧
    cache_notebook_bundle c2BadBundle true false "" emptyState =
      .error (.nbValidityError 1 2 (some 3) "u.ipynb", emptyState) :=
  ⟨by decide, (claim2_validity_check c2BadBundle).2.2 _ false "" emptyState (by decide)⟩

/-! ## Sorting and eviction lemmas (claims C3, C4, C6) -/

/-- The number of records strictly more recently accessed than `r`. -/
def countGreater (records : List NbCacheRecord) (r : NbCacheRecord) : Nat :=
  records.countP (fun r2 => decide (r.accessed < r2.accessed))

theorem insertByAccessedDesc_perm (r : NbCacheRecord) (l : List NbCacheRecord) :
    (insertByAccessedDesc r l).Perm (r :: l) := by
  induction l with
  | nil => exact List.Perm.refl _
  | cons x xs ih =>
    rw [insertByAccessedDesc]
    by_cases h : r.accessed ≤ x.accessed
    · simp only [h, if_true]
      exact (ih.cons x).trans (List.Perm.swap r x xs)
    · simp [h]

theorem sortByAccessedDesc_perm (l : List NbCacheRecord) :
    (sortByAccessedDesc l).Perm l := by
  induction l with
  | nil => exact List.Perm.refl _
  | cons r rest ih =>
    exact (insertByAccessedDesc_perm r (sortByAccessedDesc rest)).trans (ih.cons r)

theorem insertByAccessedDesc_sorted (r : NbCacheRecord) (l : List NbCacheRecord)
    (h : l.Pairwise (fun a b => b.accessed ≤ a.accessed)) :
    (insertByAccessedDesc r l).Pairwise (fun a b => b.accessed ≤ a.accessed) := by
  induction l with
  | nil => simp [insertByAccessedDesc]
  | cons x xs ih =>
    obtain ⟨hx, hxs⟩ := List.pairwise_cons.mp h
    rw [insertByAccessedDesc]
    by_cases hle : r.accessed ≤ x.accessed
    · simp only [hle, if_true]
      refine List.pairwise_cons.mpr ⟨?_, ih hxs⟩
      intro y hy
      rcases List.mem_cons.mp (((insertByAccessedDesc_perm r xs).mem_iff).mp hy) with rfl | hmem
      · exact hle
      · exact hx y hmem
    · simp only [hle, if_false]
      refine List.pairwise_cons.mpr ⟨?_, h⟩
      intro y hy
      rcases List.mem_cons.mp hy with rfl | hmem
      · exact Nat.le_of_lt (Nat.lt_of_not_le hle)
      · exact Nat.le_trans (hx y hmem) (Nat.le_of_lt (Nat.lt_of_not_le hle))

theorem sortByAccessedDesc_sorted (l : List NbCacheRecord) :
    (sortByAccessedDesc l).Pairwise (fun a b => b.accessed ≤ a.accessed) := by
  induction l with
  | nil => simp [sortByAccessedDesc]
  | cons r rest ih => exact insertByAccessedDesc_sorted r _ ih

/-- In a list sorted by `accessed` descending with distinct `accessed`
values, the first `k` elements are exactly those with fewer than `k`
strictly greater `accessed` values. -/
theorem mem_take_sorted (l : List NbCacheRecord) (k : Nat)
    (hsort : l.Pairwise (fun a b => b.accessed ≤ a.accessed))
    (hacc : (l.map (fun r => r.accessed)).Nodup) (x : NbCacheRecord) :
    x ∈ l.take k ↔ x ∈ l ∧ countGreater l x < k := by
  induction l generalizing k with
  | nil => simp
  | cons a tl ih =>
    obtain ⟨hhead, htail⟩ := List.pairwise_cons.mp hsort
    rw [List.map_cons, List.nodup_cons] at hacc
    obtain ⟨hane, hndtl⟩ := hacc
    match k with
    | 0 => simp
    | (k + 1) =>
      rw [List.take_succ_cons]
      by_cases hxa : x = a
      · subst hxa
        have hcnt : countGreater (x :: tl) x = 0 := by
          rw [countGreater, List.countP_eq_zero]
          intro b hb
          rcases List.mem_cons.mp hb with rfl | hmem
          · simp
          · simp only [decide_eq_true_eq]
            exact Nat.not_lt.mpr (hhead b hmem)
        simp [hcnt]
      · have hmemiff : x ∈ a :: tl ↔ x ∈ tl := by
          simp [List.mem_cons, hxa]
        have hcons : x ∈ tl → countGreater (a :: tl) x = countGreater tl x + 1 := by
          intro hmem
          have hlt : x.accessed < a.accessed := by
            have hle := hhead x hmem
            have hne : a.accessed ≠ x.accessed := by
              intro hcontra
              exact hane (hcontra ▸ List.mem_map_of_mem (fun r => r.accessed) hmem)
            omega
          rw [countGreater, List.countP_cons]
          simp [hlt, countGreater]
        constructor
        · intro hx
          have hx' : x ∈ List.take k tl := by
            rcases List.mem_cons.mp hx with rfl | h
            · exact absurd rfl hxa
            · exact h
          obtain ⟨hmem, hcnt⟩ := (ih k htail hndtl).mp hx'
          exact ⟨List.mem_cons_of_mem a hmem, by rw [hcons hmem]; omega⟩
        · intro ⟨hx, hcnt⟩
          have hmem : x ∈ tl := hmemiff.mp hx
          rw [hcons hmem] at hcnt
          exact List.mem_cons_of_mem a ((ih k htail hndtl).mpr ⟨hmem, by omega⟩)

theorem countGreater_sort (l : List NbCacheRecord) (x : NbCacheRecord) :
    countGreater (sortByAccessedDesc l) x = countGreater l x :=
  (sortByAccessedDesc_perm l).countP_eq _

/-- `records_to_delete keep l` (SQL: everything outside the top `keep` by
`accessed` descending) contains exactly the pks of records with at least
`keep` strictly more recent records. -/
theorem records_to_delete_mem (keep : Nat) (l : List NbCacheRecord)
    (hpk : (l.map (fun r => r.pk)).Nodup)
    (hacc : (l.map (fun r => r.accessed)).Nodup) (pk : Nat) :
    pk ∈ records_to_delete keep l ↔
      ∃ r ∈ l, r.pk = pk ∧ keep ≤ countGreater l r := by
  have hsortacc : ((sortByAccessedDesc l).map (fun r => r.accessed)).Nodup :=
    (((sortByAccessedDesc_perm l).map (fun r => r.accessed)).nodup_iff).mpr hacc
  have htake := fun x => mem_take_sorted (sortByAccessedDesc l) keep
    (sortByAccessedDesc_sorted l) hsortacc x
  rw [records_to_delete]
  simp only [List.mem_map, List.mem_filter]
  constructor
  · intro ⟨r, ⟨hmem, hkeep⟩, hrpk⟩
    refine ⟨r, hmem, hrpk, ?_⟩
    by_contra hlt
    have hrtake : r ∈ (sortByAccessedDesc l).take keep := by
      rw [htake r]
      exact ⟨((sortByAccessedDesc_perm l).mem_iff).mpr hmem,
        by rw [countGreater_sort]; omega⟩
    have hpkmem : r.pk ∈ ((sortByAccessedDesc l).take keep).map (fun r => r.pk) :=
      List.mem_map_of_mem (fun r => r.pk) hrtake
    have hfalse : (((sortByAccessedDesc l).take keep).map (fun r => r.pk)).contains r.pk = false := by
      simpa using hkeep
    rw [← Bool.not_eq_true] at hfalse
    exact hfalse (List.contains_iff_exists_mem_beq.mpr ⟨r.pk, hpkmem, by simp⟩)
  · intro ⟨r, hmem, hrpk, hge⟩
    refine ⟨r, ⟨hmem, ?_⟩, hrpk⟩
    have hfalse : (((sortByAccessedDesc l).take keep).map (fun r => r.pk)).contains r.pk = false := by
      rw [← Bool.not_eq_true]
      intro hcontains
      obtain ⟨pk', hpk', hbeq⟩ := List.contains_iff_exists_mem_beq.mp hcontains
      have hpkeq : r.pk = pk' := by simpa using hbeq
      obtain ⟨r', hr'take, hr'pk⟩ := List.mem_map.mp hpk'
      have hr'sort : r' ∈ sortByAccessedDesc l := List.mem_of_mem_take hr'take
      have hr'mem : r' ∈ l := ((sortByAccessedDesc_perm l).mem_iff).mp hr'sort
      have heqr : r' = r := List.inj_on_of_nodup_map hpk hr'mem hmem (by rw [hr'pk, ← hpkeq])
      subst heqr
      have := (htake r').mp hr'take
      rw [countGreater_sort] at this
      omega
    have hgoal : (!((((sortByAccessedDesc l).take keep).map (fun r => r.pk)).contains r.pk)) = true := by
      rw [hfalse]
      rfl
    exact hgoal

theorem records_to_delete_subset (keep : Nat) (l : List NbCacheRecord) :
    ∀ pk ∈ records_to_delete keep l, ∃ r ∈ l, r.pk = pk := by
  intro pk h
  rw [records_to_delete] at h
  obtain ⟨r, hr, hpk⟩ := List.mem_map.mp h
  exact ⟨r, (List.mem_filter.mp hr).1, hpk⟩

theorem records_to_delete_nodup (keep : Nat) (l : List NbCacheRecord)
    (hpk : (l.map (fun r => r.pk)).Nodup) : (records_to_delete keep l).Nodup := by
  rw [records_to_delete]
  exact List.Nodup.sublist (List.Sublist.map (fun r => r.pk) (List.filter_sublist l)) hpk

/-- When no more records exist than `keep`, nothing is selected for
deletion. -/
theorem records_to_delete_short (keep : Nat) (l : List NbCacheRecord)
    (hlen : l.length ≤ keep) : records_to_delete keep l = [] := by
  rw [records_to_delete]
  have hsl : (sortByAccessedDesc l).length = l.length := (sortByAccessedDesc_perm l).length_eq
  have htake : (sortByAccessedDesc l).take keep = sortByAccessedDesc l :=
    List.take_of_length_le (by omega)
  rw [htake]
  have hfil : l.filter
      (fun r => !(((sortByAccessedDesc l).map (fun r => r.pk)).contains r.pk)) = [] := by
    rw [List.filter_eq_nil_iff]
    intro r hr
    have hmem : r.pk ∈ (sortByAccessedDesc l).map (fun r => r.pk) :=
      List.mem_map_of_mem _ (((sortByAccessedDesc_perm l).mem_iff).mpr hr)
    simp [hmem]
  rw [hfil]
  rfl

/-- The removal loop of `truncate_caches` succeeds on a well-formed state
and removes exactly the named records and their disk directories. -/
theorem removeCaches_ok (ps : List Nat) (s : CacheState)
    (hndps : ps.Nodup)
    (hmem : ∀ pk ∈ ps, ∃ r ∈ s.records, r.pk = pk)
    (hpk : (s.records.map (fun r => r.pk)).Nodup)
    (hkey : (s.records.map (fun r => r.hashkey)).Nodup)
    (hdisk : ∀ r ∈ s.records, diskContains s r.hashkey = true) :
    removeCaches ps s = .ok
      { s with
        records := s.records.filter (fun r => decide (r.pk ∉ ps))
        disk := s.disk.filter (fun d =>
          decide (¬ ∃ r ∈ s.records, r.pk ∈ ps ∧ r.hashkey = d.fp)) } := by
  induction ps generalizing s with
  | nil =>
    rw [removeCaches]
    have h1 : s.records.filter (fun r => decide (r.pk ∉ ([] : List Nat))) = s.records := by
      simp
    have h2 : s.disk.filter (fun d =>
        decide (¬ ∃ r ∈ s.records, r.pk ∈ ([] : List Nat) ∧ r.hashkey = d.fp)) = s.disk := by
      simp
    rw [h1, h2]
  | cons pk rest ih =>
    obtain ⟨hpknotin, hndrest⟩ := List.nodup_cons.mp hndps
    obtain ⟨r0, hr0mem, hr0pk⟩ := hmem pk (List.mem_cons_self pk rest)
    have hfind : s.records.find? (fun r => r.pk == pk) = some r0 :=
      find?_eq_of_mem_nodup (fun r => r.pk) pk s.records r0 hpk hr0mem hr0pk
    have hdc : diskContains s r0.hashkey = true := hdisk r0 hr0mem
    rw [removeCaches, remove_cache, hfind]
    simp only [hdc, if_true]
    set s1 : CacheState :=
      { s with
        disk := s.disk.filter (fun d => !(d.fp == r0.hashkey))
        records := s.records.filter (fun r => !(r.pk == pk)) } with hs1
    have hmem1 : ∀ pk' ∈ rest, ∃ r ∈ s1.records, r.pk = pk' := by
      intro pk' hpk'
      obtain ⟨r, hrmem, hrpk⟩ := hmem pk' (List.mem_cons_of_mem pk hpk')
      refine ⟨r, List.mem_filter.mpr ⟨hrmem, ?_⟩, hrpk⟩
      have hne : r.pk ≠ pk := by
        intro hcontra
        apply hpknotin
        rw [← hcontra, hrpk]
        exact hpk'
      simp [hne]
    have hpk1 : (s1.records.map (fun r => r.pk)).Nodup :=
      List.Nodup.sublist (List.Sublist.map _ (List.filter_sublist _)) hpk
    have hkey1 : (s1.records.map (fun r => r.hashkey)).Nodup :=
      List.Nodup.sublist (List.Sublist.map _ (List.filter_sublist _)) hkey
    have hdisk1 : ∀ r ∈ s1.records, diskContains s1 r.hashkey = true := by
      intro r hrmem1
      obtain ⟨hrmem, hrneq⟩ := List.mem_filter.mp hrmem1
      have hrpkne : r.pk ≠ pk := by simpa using hrneq
      have hrne0 : r ≠ r0 := by
        intro hcontra
        exact hrpkne (by rw [hcontra, hr0pk])
      have hkeyne : r.hashkey ≠ r0.hashkey := by
        intro hcontra
        exact hrne0 (List.inj_on_of_nodup_map hkey hrmem hr0mem hcontra)
      obtain ⟨d, hdmem, hdfp⟩ := List.any_eq_true.mp (hdisk r hrmem)
      have hdfp' : d.fp = r.hashkey := by simpa using hdfp
      refine List.any_eq_true.mpr ⟨d, List.mem_filter.mpr ⟨hdmem, ?_⟩, hdfp⟩
      simp [hdfp', hkeyne]
    rw [ih s1 hndrest hmem1 hpk1 hkey1 hdisk1]
    have hrecords : s1.records.filter (fun r => decide (r.pk ∉ rest)) =
        s.records.filter (fun r => decide (r.pk ∉ pk :: rest)) := by
      rw [hs1]
      simp only []
      rw [List.filter_filter]
      refine List.filter_congr ?_
      intro r hr
      by_cases h1 : r.pk = pk <;> by_cases h2 : r.pk ∈ rest <;>
        simp [h1, h2, List.mem_cons]
    have hdiskeq : s1.disk.filter (fun d =>
          decide (¬ ∃ r ∈ s1.records, r.pk ∈ rest ∧ r.hashkey = d.fp)) =
        s.disk.filter (fun d =>
          decide (¬ ∃ r ∈ s.records, r.pk ∈ pk :: rest ∧ r.hashkey = d.fp)) := by
      rw [hs1]
      simp only []
      rw [List.filter_filter]
      refine List.filter_congr ?_
      intro d hd
      rw [Bool.eq_iff_iff]
      simp only [Bool.and_eq_true, decide_eq_true_eq, Bool.not_eq_true',
        beq_eq_false_iff_ne, List.mem_filter, List.mem_cons]
      constructor
      · rintro ⟨hnA, hne⟩ ⟨r, hrmem, hpkor, hkeyeq⟩
        rcases hpkor with hpk1 | hpkrest
        · have hreq : r = r0 :=
            List.inj_on_of_nodup_map hpk hrmem hr0mem (by rw [hpk1, hr0pk])
          exact hne (by rw [← hkeyeq, hreq])
        · have hrpkne : r.pk ≠ pk := by
            intro hcontra
            exact hpknotin (hcontra ▸ hpkrest)
          exact hnA ⟨r, ⟨hrmem, by simp [hrpkne]⟩, hpkrest, hkeyeq⟩
      · intro hnA
        constructor
        · rintro ⟨r, hrmem', hpkrest, hkeyeq⟩
          exact hnA ⟨r, hrmem'.1, Or.inr hpkrest, hkeyeq⟩
        · intro heq
          exact hnA ⟨r0, hr0mem, Or.inl hr0pk, heq.symm⟩
    rw [hrecords, hdiskeq]

/-- `truncate_caches` on a well-formed store: it succeeds, and the
surviving records and directories are exactly those not selected by
`records_to_delete`. -/
theorem truncate_caches_ok (s : CacheState)
    (hpk : (s.records.map (fun r => r.pk)).Nodup)
    (hkey : (s.records.map (fun r => r.hashkey)).Nodup)
    (hdisk : ∀ r ∈ s.records, diskContains s r.hashkey = true) :
    truncate_caches s = .ok
      { s with
        records := s.records.filter
          (fun r => decide (r.pk ∉ records_to_delete (get_cache_limit s) s.records))
        disk := s.disk.filter (fun d =>
          decide (¬ ∃ r ∈ s.records,
            r.pk ∈ records_to_delete (get_cache_limit s) s.records ∧ r.hashkey = d.fp)) } := by
  rw [truncate_caches]
  exact removeCaches_ok _ s (records_to_delete_nodup _ _ hpk)
    (records_to_delete_subset _ _) hpk hkey hdisk

/-- The records surviving the eviction filter are exactly the top `keep`
by most-recent `accessed`. -/
theorem mem_filter_not_deleted (l : List NbCacheRecord) (keep : Nat)
    (hpk : (l.map (fun r => r.pk)).Nodup)
    (hacc : (l.map (fun r => r.accessed)).Nodup) (r : NbCacheRecord) :
    r ∈ l.filter (fun r => decide (r.pk ∉ records_to_delete keep l)) ↔
      r ∈ l ∧ countGreater l r < keep := by
  rw [List.mem_filter]
  constructor
  · rintro ⟨hmem, hdec⟩
    refine ⟨hmem, ?_⟩
    by_contra hge
    have hdel : r.pk ∈ records_to_delete keep l :=
      (records_to_delete_mem keep l hpk hacc r.pk).mpr ⟨r, hmem, rfl, by omega⟩
    simp [hdel] at hdec
  · rintro ⟨hmem, hlt⟩
    refine ⟨hmem, ?_⟩
    simp only [decide_eq_true_eq]
    intro hdel
    obtain ⟨r', hr'mem, hr'pk, hge⟩ := (records_to_delete_mem keep l hpk hacc r.pk).mp hdel
    have heq : r' = r := List.inj_on_of_nodup_map hpk hr'mem hmem hr'pk
    rw [heq] at hge
    omega

/-- **C4**: (i) `select_evictable(keep_n)` (`records_to_delete`) returns
the pks of exactly the records not in the top `keep_n` by most-recent
`accessed_at`; (ii) on a well-formed store, `truncate()` succeeds and the
surviving records are exactly the `cache_limit` records with the greatest
`accessed_at`; (iii) truncate is idempotent: running it again on the
result changes nothing. -/
theorem claim4_eviction (s : CacheState) (hWF : WF s) :
    (∀ keep pk,
      pk ∈ records_to_delete keep s.records ↔
        ∃ r ∈ s.records, r.pk = pk ∧ keep ≤ countGreater s.records r) ∧
    (∃ s', truncate_caches s = .ok s' ∧
      (∀ r, r ∈ s'.records ↔
        r ∈ s.records ∧ countGreater s.records r < get_cache_limit s) ∧
      truncate_caches s' = .ok s') := by
  obtain ⟨hpk, hkey, hacc, hdisk, htime, hdnodup, hlim⟩ := hWF
  refine ⟨fun keep pk => records_to_delete_mem keep s.records hpk hacc pk, ?_⟩
  refine ⟨_, truncate_caches_ok s hpk hkey hdisk, ?_, ?_⟩
  · intro r
    exact mem_filter_not_deleted s.records (get_cache_limit s) hpk hacc r
  · set s' : CacheState :=
      { s with
        records := s.records.filter
          (fun r => decide (r.pk ∉ records_to_delete (get_cache_limit s) s.records))
        disk := s.disk.filter (fun d =>
          decide (¬ ∃ r ∈ s.records,
            r.pk ∈ records_to_delete (get_cache_limit s) s.records ∧ r.hashkey = d.fp)) }
      with hs'
    have hsub : s'.records.Sublist s.records := List.filter_sublist _
    have hlim' : get_cache_limit s' = get_cache_limit s := rfl
    have hpk' : (s'.records.map (fun r => r.pk)).Nodup :=
      List.Nodup.sublist (List.Sublist.map _ hsub) hpk
    have hacc' : (s'.records.map (fun r => r.accessed)).Nodup :=
      List.Nodup.sublist (List.Sublist.map _ hsub) hacc
    have hempty : records_to_delete (get_cache_limit s') s'.records = [] := by
      rw [List.eq_nil_iff_forall_not_mem]
      intro pk hdel
      obtain ⟨r, hrmem, hrpk, hge⟩ :=
        (records_to_delete_mem _ s'.records hpk' hacc' pk).mp hdel
      have hlt : countGreater s.records r < get_cache_limit s :=
        ((mem_filter_not_deleted s.records (get_cache_limit s) hpk hacc r).mp hrmem).2
      have hle : countGreater s'.records r ≤ countGreater s.records r :=
        List.Sublist.countP_le _ hsub
      rw [hlim'] at hge
      omega
    rw [truncate_caches, hempty, removeCaches]

/-- An empty notebook body for disk fixtures. -/
def nbEmpty : Notebook := { nbformat := 4, nbformat_minor := 4, metadata := [], cells := [] }

/-- Three distinct fingerprints for fixtures. -/
def fpA : Fingerprint := { nbformat := 4, nbformat_minor := 4, metadata := [("k", "a")], cells := [] }

def fpB : Fingerprint := { nbformat := 4, nbformat_minor := 4, metadata := [("k", "b")], cells := [] }

def fpC : Fingerprint := { nbformat := 4, nbformat_minor := 4, metadata := [("k", "c")], cells := [] }

/-- A well-formed store with three records, `cache_limit = 2`. -/
def c4State : CacheState :=
  { records :=
      [{ pk := 1, hashkey := fpA, uri := "a", description := "", data := [],
         created := 0, accessed := 0 },
       { pk := 2, hashkey := fpB, uri := "b", description := "", data := [],
         created := 1, accessed := 1 },
       { pk := 3, hashkey := fpC, uri := "c", description := "", data := [],
         created := 2, accessed := 2 }]
    disk := [⟨fpA, nbEmpty, []⟩, ⟨fpB, nbEmpty, []⟩, ⟨fpC, nbEmpty, []⟩]
    nextPk := 4
    cache_limit_setting := some 2
    time := 3 }

/-- Witness for C4, at a three-record store with limit 2. -/
theorem claim4_witness :
    WF c4State ∧
    ((∀ keep pk,
      pk ∈ records_to_delete keep c4State.records ↔
        ∃ r ∈ c4State.records, r.pk = pk ∧ keep ≤ countGreater c4State.records r) ∧
    (∃ s', truncate_caches c4State = .ok s' ∧
      (∀ r, r ∈ s'.records ↔
        r ∈ c4State.records ∧ countGreater c4State.records r < get_cache_limit c4State) ∧
      truncate_caches s' = .ok s')) :=
  ⟨by decide, claim4_eviction c4State (by decide)⟩

/-! ## The create-and-truncate tail of `cache_notebook_bundle`
(claims C3 and C6) -/

/-- After the overwrite handling and the removal of any stale record for
the fingerprint, the remainder of `cache_notebook_bundle` — duplicate
check, record creation, disk write, truncate — succeeds on a state
whose records avoid the fingerprint, and the new record and directory
survive the truncation. -/
theorem ingest_tail (bundle : CacheBundleIn) (description : String)
    (hnb : Notebook) (fp : Fingerprint) (s2 : CacheState)
    (h2pk : (s2.records.map (fun r => r.pk)).Nodup)
    (h2keynd : (s2.records.map (fun r => r.hashkey)).Nodup)
    (h2acc : (s2.records.map (fun r => r.accessed)).Nodup)
    (h2fp : ∀ r ∈ s2.records, r.hashkey ≠ fp)
    (h2lt : ∀ r ∈ s2.records, r.accessed < s2.time ∧ r.pk < s2.nextPk)
    (h2disk : ∀ r ∈ s2.records, diskContains s2 r.hashkey = true)
    (h2fpdisk : diskContains s2 fp = false)
    (hlim : 0 < get_cache_limit s2) :
    ∃ s5 : CacheState,
      (if s2.records.any (fun r => r.hashkey == fp) then
          (Except.error (CacheError.valueError "hashkey already exists", s2) :
            Except (CacheError × CacheState) (NbCacheRecord × CacheState))
        else
          match truncate_caches (writeDiskDir
              { s2 with
                records := s2.records ++
                  [{ pk := s2.nextPk, hashkey := fp, uri := bundle.uri,
                     description := description, data := bundle.data,
                     created := s2.time, accessed := s2.time }]
                nextPk := s2.nextPk + 1
                time := s2.time + 1 } fp hnb (bundle.artifacts.getD [])) with
          | .error es => .error es
          | .ok s5 =>
            .ok ({ pk := s2.nextPk, hashkey := fp, uri := bundle.uri,
                   description := description, data := bundle.data,
                   created := s2.time, accessed := s2.time }, s5)) =
        .ok ({ pk := s2.nextPk, hashkey := fp, uri := bundle.uri,
               description := description, data := bundle.data,
               created := s2.time, accessed := s2.time }, s5) ∧
      s5.records.filter (fun r => r.hashkey == fp) =
        [{ pk := s2.nextPk, hashkey := fp, uri := bundle.uri,
           description := description, data := bundle.data,
           created := s2.time, accessed := s2.time }] ∧
      (∀ r ∈ s5.records, r ∈ s2.records ∨ r =
        { pk := s2.nextPk, hashkey := fp, uri := bundle.uri,
          description := description, data := bundle.data,
          created := s2.time, accessed := s2.time }) ∧
      diskFind s5 fp = some ⟨fp, hnb, bundle.artifacts.getD []⟩ := by
  set newRec : NbCacheRecord :=
    { pk := s2.nextPk, hashkey := fp, uri := bundle.uri,
      description := description, data := bundle.data,
      created := s2.time, accessed := s2.time } with hnewRec
  set s4 : CacheState := writeDiskDir
    { s2 with records := s2.records ++ [newRec], nextPk := s2.nextPk + 1, time := s2.time + 1 }
    fp hnb (bundle.artifacts.getD []) with hs4
  have hany : s2.records.any (fun r => r.hashkey == fp) = false := by
    rw [Bool.eq_false_iff]
    intro hcontra
    obtain ⟨r, hr, hbeq⟩ := List.any_eq_true.mp hcontra
    exact h2fp r hr (by simpa using hbeq)
  have hs4records : s4.records = s2.records ++ [newRec] := rfl
  have hs4disk : s4.disk = s2.disk ++ [⟨fp, hnb, bundle.artifacts.getD []⟩] := rfl
  have hs4lim : get_cache_limit s4 = get_cache_limit s2 := rfl
  have h4pk : (s4.records.map (fun r => r.pk)).Nodup := by
    rw [hs4records, List.map_append, List.nodup_append]
    refine ⟨h2pk, by simp, ?_⟩
    intro x hx
    obtain ⟨r, hr, hrpk⟩ := List.mem_map.mp hx
    simp only [List.map_cons, List.map_nil, List.mem_singleton]
    intro hcontra
    have := (h2lt r hr).2
    omega
  have h4key : (s4.records.map (fun r => r.hashkey)).Nodup := by
    rw [hs4records, List.map_append, List.nodup_append]
    refine ⟨h2keynd, by simp, ?_⟩
    intro x hx
    obtain ⟨r, hr, hrk⟩ := List.mem_map.mp hx
    simp only [List.map_cons, List.map_nil, List.mem_singleton]
    intro hcontra
    exact h2fp r hr (by rw [hrk, hcontra])
  have h4acc : (s4.records.map (fun r => r.accessed)).Nodup := by
    rw [hs4records, List.map_append, List.nodup_append]
    refine ⟨h2acc, by simp, ?_⟩
    intro x hx
    obtain ⟨r, hr, hra⟩ := List.mem_map.mp hx
    simp only [List.map_cons, List.map_nil, List.mem_singleton]
    intro hcontra
    have hlt := (h2lt r hr).1
    rw [← hra] at hcontra
    have hacc' : r.accessed = s2.time := by simpa [hnewRec] using hcontra
    omega
  have h4disk : ∀ r ∈ s4.records, diskContains s4 r.hashkey = true := by
    intro r hr
    rw [hs4records] at hr
    rcases List.mem_append.mp hr with hmem | hmem
    · have := h2disk r hmem
      rw [diskContains] at this ⊢
      rw [hs4disk, List.any_append, this]
      rfl
    · have : r = newRec := by simpa using hmem
      subst this
      rw [diskContains, hs4disk, List.any_append]
      have : ([⟨fp, hnb, bundle.artifacts.getD []⟩] : List DiskDir).any
          (fun d => d.fp == newRec.hashkey) = true := by
        simp [hnewRec]
      rw [this, Bool.or_true]
  have htrunc := truncate_caches_ok s4 h4pk h4key h4disk
  have hcount : countGreater s4.records newRec = 0 := by
    rw [countGreater, hs4records, List.countP_append, List.countP_eq_zero.mpr, List.countP_eq_zero.mpr]
    · intro r hr
      simp only [List.mem_singleton] at hr
      subst hr
      simp
    · intro r hr
      have := (h2lt r hr).1
      simp only [decide_eq_true_eq, hnewRec]
      omega
  have hnotdel : newRec.pk ∉ records_to_delete (get_cache_limit s4) s4.records := by
    intro hdel
    obtain ⟨r', hr'mem, hr'pk, hge⟩ :=
      (records_to_delete_mem _ s4.records h4pk h4acc newRec.pk).mp hdel
    have hmem4 : newRec ∈ s4.records := by
      rw [hs4records]
      exact List.mem_append.mpr (Or.inr (List.mem_singleton.mpr rfl))
    have heq : r' = newRec := List.inj_on_of_nodup_map h4pk hr'mem hmem4 hr'pk
    rw [heq, hcount, hs4lim] at hge
    omega
  set s5 : CacheState :=
    { s4 with
      records := s4.records.filter
        (fun r => decide (r.pk ∉ records_to_delete (get_cache_limit s4) s4.records))
      disk := s4.disk.filter (fun d =>
        decide (¬ ∃ r ∈ s4.records,
          r.pk ∈ records_to_delete (get_cache_limit s4) s4.records ∧ r.hashkey = d.fp)) }
    with hs5
  refine ⟨s5, ?_, ?_, ?_, ?_⟩
  · simp [hany, htrunc]
  · rw [hs5]
    simp only []
    rw [List.filter_filter]
    rw [hs4records, List.filter_append]
    rw [hs4records] at hnotdel
    have hleft : s2.records.filter (fun a =>
        (a.hashkey == fp) && decide (a.pk ∉
          records_to_delete (get_cache_limit s4) (s2.records ++ [newRec]))) = [] := by
      rw [List.filter_eq_nil_iff]
      intro r hr
      simp only [Bool.and_eq_true, beq_iff_eq, not_and]
      intro hcontra
      exact absurd hcontra (h2fp r hr)
    have hright : ([newRec] : List NbCacheRecord).filter (fun a =>
        (a.hashkey == fp) && decide (a.pk ∉
          records_to_delete (get_cache_limit s4) (s2.records ++ [newRec]))) = [newRec] := by
      simp [hnotdel, hnewRec]
    rw [hleft, hright, List.nil_append]
  · intro r hr
    have hr4 : r ∈ s4.records := (List.filter_sublist _).subset hr
    rw [hs4records] at hr4
    rcases List.mem_append.mp hr4 with hmem | hmem
    · exact Or.inl hmem
    · exact Or.inr (by simpa using hmem)
  · rw [diskFind]
    have hs5disk : ({ s4 with
        records := s4.records.filter
          (fun r => decide (r.pk ∉ records_to_delete (get_cache_limit s4) s4.records))
        disk := s4.disk.filter (fun d =>
          decide (¬ ∃ r ∈ s4.records,
            r.pk ∈ records_to_delete (get_cache_limit s4) s4.records ∧ r.hashkey = d.fp)) } :
        CacheState).disk =
        s4.disk.filter (fun d =>
          decide (¬ ∃ r ∈ s4.records,
            r.pk ∈ records_to_delete (get_cache_limit s4) s4.records ∧ r.hashkey = d.fp)) := rfl
    rw [hs5disk, hs4disk, List.filter_append, List.find?_append]
    have hleft : (s2.disk.filter (fun d =>
        decide (¬ ∃ r ∈ s4.records,
          r.pk ∈ records_to_delete (get_cache_limit s4) s4.records ∧ r.hashkey = d.fp))).find?
        (fun d => d.fp == fp) = none := by
      rw [List.find?_eq_none]
      intro d hd
      have hdmem : d ∈ s2.disk := (List.filter_sublist _).subset hd
      simp only [beq_iff_eq]
      intro hcontra
      have : diskContains s2 fp = true :=
        List.any_eq_true.mpr ⟨d, hdmem, by simp [hcontra]⟩
      rw [h2fpdisk] at this
      cases this
    rw [hleft]
    have hkeep : (([⟨fp, hnb, bundle.artifacts.getD []⟩] : List DiskDir).filter (fun d =>
        decide (¬ ∃ r ∈ s4.records,
          r.pk ∈ records_to_delete (get_cache_limit s4) s4.records ∧ r.hashkey = d.fp))) =
        [⟨fp, hnb, bundle.artifacts.getD []⟩] := by
      rw [List.filter_eq_self]
      intro d hd
      have hd' : d = ⟨fp, hnb, bundle.artifacts.getD []⟩ := by simpa using hd
      subst hd'
      simp only [decide_eq_true_eq]
      rintro ⟨r, hrmem, hrdel, hrkey⟩
      rw [hs4records] at hrmem
      rcases List.mem_append.mp hrmem with hmem | hmem
      · exact h2fp r hmem hrkey
      · have : r = newRec := by simpa using hmem
        subst this
        exact hnotdel hrdel
    rw [hkeep]
    simp

/-- Removing the record found for a fingerprint leaves no record with
that fingerprint (the `hashkey` column is unique). -/
theorem dropRecord_no_fp (l : List NbCacheRecord) (fp : Fingerprint)
    (hkey : (l.map (fun r => r.hashkey)).Nodup) (record : NbCacheRecord)
    (hfind : l.find? (fun r => r.hashkey == fp) = some record) :
    ∀ r ∈ l.filter (fun r => !(r.pk == record.pk)), r.hashkey ≠ fp := by
  intro r hr hcontra
  obtain ⟨hrmem, hrpk⟩ := List.mem_filter.mp hr
  have hrecmem : record ∈ l := List.mem_of_find?_eq_some hfind
  have hreckey : record.hashkey = fp := by simpa using List.find?_some hfind
  have : r = record := List.inj_on_of_nodup_map hkey hrmem hrecmem (by rw [hcontra, hreckey])
  rw [this] at hrpk
  simp at hrpk

theorem find?_none_no_fp (l : List NbCacheRecord) (fp : Fingerprint)
    (hfind : l.find? (fun r => r.hashkey == fp) = none) :
    ∀ r ∈ l, r.hashkey ≠ fp := by
  intro r hr hcontra
  have := List.find?_eq_none.mp hfind r hr
  simp [hcontra] at this

theorem any_filter_fp_self (l : List DiskDir) (fp : Fingerprint) :
    (l.filter (fun d => !(d.fp == fp))).any (fun d => d.fp == fp) = false := by
  rw [Bool.eq_false_iff]
  intro hcontra
  obtain ⟨d, hd, hbeq⟩ := List.any_eq_true.mp hcontra
  have := (List.mem_filter.mp hd).2
  rw [hbeq] at this
  simp at this

theorem any_filter_fp_ne (l : List DiskDir) (fp key : Fingerprint) (hne : key ≠ fp)
    (h : l.any (fun d => d.fp == key) = true) :
    (l.filter (fun d => !(d.fp == fp))).any (fun d => d.fp == key) = true := by
  obtain ⟨d, hd, hbeq⟩ := List.any_eq_true.mp h
  have hdkey : d.fp = key := by simpa using hbeq
  refine List.any_eq_true.mpr ⟨d, List.mem_filter.mpr ⟨hd, ?_⟩, hbeq⟩
  simp [hdkey, hne]

/-- **C3**: for a notebook whose fingerprint directory already exists on
disk, ingest with `overwrite=false` raises `CachingError` leaving the
state untouched, while ingest with `overwrite=true` removes the old
directory and metadata record and creates new ones: afterwards exactly
one cache record carries the fingerprint, its `origin_uri` (and pk,
data, timestamps) are those of the new ingest, every old record for the
fingerprint is gone, and the directory holds the newly hashed notebook. -/
theorem claim3_overwrite_semantics (bundle : CacheBundleIn) (check_validity : Bool)
    (description : String) (s : CacheState) (hnb : Notebook) (fp : Fingerprint)
    (hWF : WF s)
    (hval : check_validity = true → validate_nb_bundle bundle = .ok ())
    (hhash : create_hashed_notebook bundle.nb DEFAULT_NB_METADATA none = .ok (hnb, fp))
    (hdiskfp : diskContains s fp = true) :
    (cache_notebook_bundle bundle check_validity false description s =
      .error (.cachingError "Notebook already exists in cache and overwrite=False.", s)) ∧
    (∃ s5, cache_notebook_bundle bundle check_validity true description s =
        .ok ({ pk := s.nextPk, hashkey := fp, uri := bundle.uri,
               description := description, data := bundle.data,
               created := s.time, accessed := s.time }, s5) ∧
      s5.records.filter (fun r => r.hashkey == fp) =
        [{ pk := s.nextPk, hashkey := fp, uri := bundle.uri,
           description := description, data := bundle.data,
           created := s.time, accessed := s.time }] ∧
      (∀ r ∈ s.records, r.hashkey = fp → r ∉ s5.records) ∧
      diskFind s5 fp = some ⟨fp, hnb, bundle.artifacts.getD []⟩) := by
  obtain ⟨hpk, hkey, hacc, hdisk, htime, hdnodup, hlim⟩ := hWF
  have hv : (if check_validity then validate_nb_bundle bundle else Except.ok ()) = .ok () := by
    cases check_validity
    · rfl
    · exact hval rfl
  constructor
  · simp [cache_notebook_bundle, hv, hhash, hdiskfp]
  · simp only [cache_notebook_bundle, hv, hhash, hdiskfp, Bool.not_true, Bool.and_false,
      Bool.false_eq_true, if_false, if_true, removeDiskDir]
    cases hf : s.records.find? (fun r => r.hashkey == fp) with
    | some record =>
      have h2fp : ∀ r ∈ s.records.filter (fun r => !(r.pk == record.pk)), r.hashkey ≠ fp :=
        dropRecord_no_fp s.records fp hkey record hf
      have hponly : ((s.records.filter (fun r => !(r.pk == record.pk))).map
          (fun r => r.pk)).Nodup :=
        List.Nodup.sublist (List.Sublist.map _ (List.filter_sublist _)) hpk
      have hkeynd : ((s.records.filter (fun r => !(r.pk == record.pk))).map
          (fun r => r.hashkey)).Nodup :=
        List.Nodup.sublist (List.Sublist.map _ (List.filter_sublist _)) hkey
      have haccnd : ((s.records.filter (fun r => !(r.pk == record.pk))).map
          (fun r => r.accessed)).Nodup :=
        List.Nodup.sublist (List.Sublist.map _ (List.filter_sublist _)) hacc
      have hlt2 : ∀ r ∈ s.records.filter (fun r => !(r.pk == record.pk)),
          r.accessed < s.time ∧ r.pk < s.nextPk :=
        fun r hr => htime r ((List.filter_sublist _).subset hr)
      have hdisk2 : ∀ r ∈ s.records.filter (fun r => !(r.pk == record.pk)),
          (s.disk.filter (fun d => !(d.fp == fp))).any (fun d => d.fp == r.hashkey) = true :=
        fun r hr => any_filter_fp_ne s.disk fp r.hashkey (h2fp r hr)
          (hdisk r ((List.filter_sublist _).subset hr))
      obtain ⟨s5, h1, h2, h3, h4⟩ := ingest_tail bundle description hnb fp
        { records := s.records.filter (fun r => !(r.pk == record.pk)),
          disk := s.disk.filter (fun d => !(d.fp == fp)),
          nextPk := s.nextPk, cache_limit_setting := s.cache_limit_setting, time := s.time }
        hponly hkeynd haccnd h2fp hlt2 hdisk2 (any_filter_fp_self s.disk fp) hlim
      refine ⟨s5, h1, h2, ?_, h4⟩
      intro r hrmem hrkey hrs5
      rcases h3 r hrs5 with hin2 | heq
      · exact h2fp r hin2 hrkey
      · have hlt := (htime r hrmem).2
        have hpkeq : r.pk = s.nextPk := by rw [heq]
        omega
    | none =>
      have h2fp : ∀ r ∈ s.records, r.hashkey ≠ fp := find?_none_no_fp s.records fp hf
      have hdisk2 : ∀ r ∈ s.records,
          (s.disk.filter (fun d => !(d.fp == fp))).any (fun d => d.fp == r.hashkey) = true :=
        fun r hr => any_filter_fp_ne s.disk fp r.hashkey (h2fp r hr) (hdisk r hr)
      obtain ⟨s5, h1, h2, h3, h4⟩ := ingest_tail bundle description hnb fp
        { records := s.records,
          disk := s.disk.filter (fun d => !(d.fp == fp)),
          nextPk := s.nextPk, cache_limit_setting := s.cache_limit_setting, time := s.time }
        hpk hkey hacc h2fp htime hdisk2 (any_filter_fp_self s.disk fp) hlim
      refine ⟨s5, h1, h2, ?_, h4⟩
      intro r hrmem hrkey hrs5
      rcases h3 r hrs5 with hin2 | heq
      · exact h2fp r hin2 hrkey
      · have hlt := (htime r hrmem).2
        have hpkeq : r.pk = s.nextPk := by rw [heq]
        omega

/-- A store already holding `sampleNb`'s fingerprint under uri `a.ipynb`. -/
def c3State : CacheState :=
  { records := [{ pk := 1, hashkey := sampleFp, uri := "a.ipynb", description := "",
                  data := [], created := 0, accessed := 0 }]
    disk := [⟨sampleFp, sampleNb, []⟩]
    nextPk := 2
    cache_limit_setting := none
    time := 5 }

/-- A re-ingest of the same notebook content under uri `b.ipynb`. -/
def c3Bundle : CacheBundleIn :=
  { nb := sampleNb, uri := "b.ipynb", artifacts := none, data := [], traceback := none }

/-- Witness for C3: re-ingesting equal content with a new origin uri. -/
theorem claim3_witness :
    WF c3State ∧
    ((cache_notebook_bundle c3Bundle true false "" c3State =
      .error (.cachingError "Notebook already exists in cache and overwrite=False.", c3State)) ∧
    (∃ s5, cache_notebook_bundle c3Bundle true true "" c3State =
        .ok ({ pk := c3State.nextPk, hashkey := sampleFp, uri := c3Bundle.uri,
               description := "", data := c3Bundle.data,
               created := c3State.time, accessed := c3State.time }, s5) ∧
      s5.records.filter (fun r => r.hashkey == sampleFp) =
        [{ pk := c3State.nextPk, hashkey := sampleFp, uri := c3Bundle.uri,
           description := "", data := c3Bundle.data,
           created := c3State.time, accessed := c3State.time }] ∧
      (∀ r ∈ c3State.records, r.hashkey = sampleFp → r ∉ s5.records) ∧
      diskFind s5 sampleFp = some ⟨sampleFp, sampleNb, c3Bundle.artifacts.getD []⟩)) :=
  ⟨by decide,
    claim3_overwrite_semantics c3Bundle true "" c3State sampleNb sampleFp (by decide)
      (fun _ => by decide) (by decide) (by decide)⟩

/-- **C6**: on a well-formed store, every error raised by
`cache_notebook_bundle` is raised before any write has occurred, and the
cache state carried by the error — the metadata records and the on-disk
tree alike — is exactly the input state.  (The error exits are the
validity error, the unsupported-minor `CachingError` and the
already-cached `CachingError`, all prior to any mutation; on a
well-formed store the record creation, the writes and the truncation
that follow them cannot fail.  Fallible filesystem I/O itself is not
modelled.) -/
theorem claim6_error_leaves_store (bundle : CacheBundleIn)
    (check_validity overwrite : Bool) (description : String) (s : CacheState)
    (hWF : WF s) :
    ∀ e serr, cache_notebook_bundle bundle check_validity overwrite description s =
      .error (e, serr) → serr = s := by
  obtain ⟨hpk, hkey, hacc, hdisk, htime, hdnodup, hlim⟩ := hWF
  intro e serr h
  rw [cache_notebook_bundle.eq_def] at h
  cases hv : (if check_validity = true then validate_nb_bundle bundle else Except.ok ()) with
  | error ev =>
    rw [hv] at h
    simp only [Except.error.injEq, Prod.mk.injEq] at h
    exact h.2.symm
  | ok u =>
    rw [hv] at h
    cases hhash : create_hashed_notebook bundle.nb DEFAULT_NB_METADATA none with
    | error eh =>
      rw [hhash] at h
      simp only [Except.error.injEq, Prod.mk.injEq] at h
      exact h.2.symm
    | ok pair =>
      obtain ⟨hnb, fp⟩ := pair
      rw [hhash] at h
      dsimp only at h
      by_cases hcond : (diskContains s fp && !overwrite) = true
      · rw [if_pos hcond] at h
        simp only [Except.error.injEq, Prod.mk.injEq] at h
        exact h.2.symm
      · rw [if_neg hcond] at h
        by_cases hd : diskContains s fp = true
        · simp only [hd, if_true, removeDiskDir] at h
          cases hf : s.records.find? (fun r => r.hashkey == fp) with
          | some record =>
            rw [hf] at h
            have h2fp : ∀ r ∈ s.records.filter (fun r => !(r.pk == record.pk)),
                r.hashkey ≠ fp := dropRecord_no_fp s.records fp hkey record hf
            obtain ⟨s5, h1, h2, h3, h4⟩ := ingest_tail bundle description hnb fp
              { records := s.records.filter (fun r => !(r.pk == record.pk)),
                disk := s.disk.filter (fun d => !(d.fp == fp)),
                nextPk := s.nextPk, cache_limit_setting := s.cache_limit_setting,
                time := s.time }
              (List.Nodup.sublist (List.Sublist.map _ (List.filter_sublist _)) hpk)
              (List.Nodup.sublist (List.Sublist.map _ (List.filter_sublist _)) hkey)
              (List.Nodup.sublist (List.Sublist.map _ (List.filter_sublist _)) hacc)
              h2fp
              (fun r hr => htime r ((List.filter_sublist _).subset hr))
              (fun r hr => any_filter_fp_ne s.disk fp r.hashkey (h2fp r hr)
                (hdisk r ((List.filter_sublist _).subset hr)))
              (any_filter_fp_self s.disk fp) hlim
            exact Except.noConfusion (h1.symm.trans h)
          | none =>
            rw [hf] at h
            have h2fp : ∀ r ∈ s.records, r.hashkey ≠ fp := find?_none_no_fp s.records fp hf
            obtain ⟨s5, h1, h2, h3, h4⟩ := ingest_tail bundle description hnb fp
              { records := s.records,
                disk := s.disk.filter (fun d => !(d.fp == fp)),
                nextPk := s.nextPk, cache_limit_setting := s.cache_limit_setting,
                time := s.time }
              hpk hkey hacc h2fp htime
              (fun r hr => any_filter_fp_ne s.disk fp r.hashkey (h2fp r hr) (hdisk r hr))
              (any_filter_fp_self s.disk fp) hlim
            exact Except.noConfusion (h1.symm.trans h)
        · have hd' : diskContains s fp = false := by
            rw [Bool.eq_false_iff]
            exact hd
          simp only [hd', Bool.false_eq_true, if_false] at h
          cases hf : s.records.find? (fun r => r.hashkey == fp) with
          | some record =>
            rw [hf] at h
            have hrecmem : record ∈ s.records := List.mem_of_find?_eq_some hf
            have hreckey : record.hashkey = fp := by simpa using List.find?_some hf
            have : diskContains s fp = true := by
              rw [← hreckey]
              exact hdisk record hrecmem
            rw [hd'] at this
            cases this
          | none =>
            rw [hf] at h
            have h2fp : ∀ r ∈ s.records, r.hashkey ≠ fp := find?_none_no_fp s.records fp hf
            obtain ⟨s5, h1, h2, h3, h4⟩ := ingest_tail bundle description hnb fp s
              hpk hkey hacc h2fp htime hdisk hd' hlim
            exact Except.noConfusion (h1.symm.trans h)

/-- Witness for C6: an invalid bundle against a well-formed store leaves
it untouched. -/
theorem claim6_witness :
    WF c3State ∧
    cache_notebook_bundle c2BadBundle true false "" c3State =
      .error (.nbValidityError 1 2 (some 3) "u.ipynb", c3State) ∧
    c3State = c3State :=
  ⟨by decide, by decide,
    claim6_error_leaves_store c2BadBundle true false "" c3State (by decide)
      (.nbValidityError 1 2 (some 3) "u.ipynb") c3State (by decide)⟩

/-! ## Claim C5: merge structure and metadata preservation -/

theorem filterMeta_none (m : Meta) : filterMeta none m = m := by
  rw [filterMeta]
  exact List.filter_true m

/-- A code cell at position `i` of the cell list sits at position
`#(code cells before i)` of the code-cell list. -/
theorem codeCells_get (cells : List Cell) (i : Nat) (c : Cell)
    (hget : cells.get? i = some c) (hcode : c.cell_type = "code") :
    (cells.filter (fun x => x.cell_type == "code")).get?
      (((cells.take i).filter (fun x => x.cell_type == "code")).length) = some c := by
  induction cells generalizing i with
  | nil => simp at hget
  | cons x rest ih =>
    match i with
    | 0 =>
      rw [List.get?_cons_zero] at hget
      cases hget
      rw [List.take_zero]
      simp only [List.filter_nil, List.length_nil]
      rw [List.filter_cons_of_pos (by simp [hcode])]
      rfl
    | (i' + 1) =>
      rw [List.get?_cons_succ] at hget
      by_cases hx : x.cell_type = "code"
      · rw [List.take_succ_cons, List.filter_cons_of_pos (by simp [hx]),
          List.filter_cons_of_pos (by simp [hx]), List.length_cons, List.get?_cons_succ]
        exact ih i' hget
      · rw [List.take_succ_cons, List.filter_cons_of_neg (by simp [hx]),
          List.filter_cons_of_neg (by simp [hx])]
        exact ih i' hget

/-- The cell-merge loop, characterized positionally: it succeeds when the
cached notebook has exactly as many cells as the input has code cells;
non-code cells pass through unchanged, and the `j`-th input code cell is
replaced by the merge of the `j`-th cached cell. -/
theorem mergeCells_spec (cell_meta : Option (List String)) (minor : Nat)
    (cells cacheCells : List Cell)
    (hlen : (cells.filter (fun c => c.cell_type == "code")).length = cacheCells.length) :
    ∃ out, mergeCells cell_meta minor cacheCells cells = some out ∧
      out.length = cells.length ∧
      (∀ i c, cells.get? i = some c → c.cell_type ≠ "code" → out.get? i = some c) ∧
      (∀ i c, cells.get? i = some c → c.cell_type = "code" →
        ∃ cc, cacheCells.get?
            (((cells.take i).filter (fun x => x.cell_type == "code")).length) = some cc ∧
          out.get? i = some (mergeCell cell_meta minor cc c)) := by
  induction cells generalizing cacheCells with
  | nil =>
    refine ⟨[], rfl, rfl, ?_, ?_⟩
    · intro i c hget
      simp at hget
    · intro i c hget
      simp at hget
  | cons c rest ih =>
    by_cases hcode : c.cell_type = "code"
    · rw [List.filter_cons_of_pos (by simp [hcode]), List.length_cons] at hlen
      match cacheCells, hlen with
      | cc :: ccs, hlen =>
        rw [List.length_cons] at hlen
        obtain ⟨out, hout, hlen', hnon, hcodeidx⟩ := ih ccs (by omega)
        refine ⟨mergeCell cell_meta minor cc c :: out, ?_, by simp [hlen'], ?_, ?_⟩
        · simp only [mergeCells, hcode, hout, Option.map_some']
          simp [hcode]
        · intro i c' hget hnc
          match i with
          | 0 =>
            rw [List.get?_cons_zero] at hget
            cases hget
            exact absurd hcode hnc
          | (i' + 1) =>
            rw [List.get?_cons_succ] at hget
            rw [List.get?_cons_succ]
            exact hnon i' c' hget hnc
        · intro i c' hget hc'
          match i with
          | 0 =>
            rw [List.get?_cons_zero] at hget
            cases hget
            refine ⟨cc, ?_, rfl⟩
            rw [List.take_zero]
            rfl
          | (i' + 1) =>
            rw [List.get?_cons_succ] at hget
            obtain ⟨cc', hcc', hout'⟩ := hcodeidx i' c' hget hc'
            refine ⟨cc', ?_, ?_⟩
            · rw [List.take_succ_cons, List.filter_cons_of_pos (by simp [hcode]),
                List.length_cons, List.get?_cons_succ]
              exact hcc'
            · rw [List.get?_cons_succ]
              exact hout'
    · rw [List.filter_cons_of_neg (by simp [hcode])] at hlen
      obtain ⟨out, hout, hlen', hnon, hcodeidx⟩ := ih cacheCells hlen
      refine ⟨c :: out, ?_, by simp [hlen'], ?_, ?_⟩
      · simp only [mergeCells, hout, Option.map_some']
        simp [hcode]
      · intro i c' hget hnc
        match i with
        | 0 =>
          rw [List.get?_cons_zero] at hget
          cases hget
          rfl
        | (i' + 1) =>
          rw [List.get?_cons_succ] at hget
          rw [List.get?_cons_succ]
          exact hnon i' c' hget hnc
      · intro i c' hget hc'
        match i with
        | 0 =>
          rw [List.get?_cons_zero] at hget
          cases hget
          exact absurd hc' hcode
        | (i' + 1) =>
          rw [List.get?_cons_succ] at hget
          obtain ⟨cc', hcc', hout'⟩ := hcodeidx i' c' hget hc'
          refine ⟨cc', ?_, ?_⟩
          · rw [List.take_succ_cons, List.filter_cons_of_neg (by simp [hcode])]
            exact hcc'
          · rw [List.get?_cons_succ]
            exact hout'

theorem mergeCell_none_fields (minor : Nat) (cc c : Cell) :
    (mergeCell none minor cc c).metadata = cc.metadata ∧
    (mergeCell none minor cc c).source = cc.source ∧
    (mergeCell none minor cc c).cell_type = cc.cell_type := by
  unfold mergeCell
  by_cases h : minor ≥ 5 <;> simp [h]

/-- **C5**: with a cached match (same fingerprint, computed with the
default allow-lists, where full cell metadata is hashed) merging replaces
each code cell of the input, in order, with one consumed cached code
cell: the cell count and the structural positions of code cells are
preserved, non-code cells pass through untouched, and — since
`cell_meta=None` and matching fingerprints force the cached cells'
metadata to equal the input cells' metadata — every merged code cell
carries the input cell's metadata (and source) unchanged. -/
theorem claim5_merge_match (nb nb0 : Notebook) (s : CacheState)
    (a cache_nb : Notebook) (fp : Fingerprint) (record : NbCacheRecord)
    (arts : List (String × String))
    (hhash : create_hashed_notebook nb DEFAULT_NB_METADATA none = .ok (a, fp))
    (hhash0 : create_hashed_notebook nb0 DEFAULT_NB_METADATA none = .ok (cache_nb, fp))
    (hfind : s.records.find? (fun r => r.hashkey == fp) = some record)
    (hfindpk : s.records.find? (fun r => r.pk == record.pk) = some record)
    (hdiskf : s.disk.find? (fun d => d.fp == record.hashkey) =
      some ⟨record.hashkey, cache_nb, arts⟩) :
    ∃ merged, merge_match_into_notebook nb DEFAULT_MERGE_NB_META none s =
        .ok ((record.pk, merged), touchRecord record.pk s) ∧
      merged.cells.length = nb.cells.length ∧
      (∀ i c, nb.cells.get? i = some c → c.cell_type ≠ "code" →
        merged.cells.get? i = some c) ∧
      (∀ i c, nb.cells.get? i = some c → c.cell_type = "code" →
        ∃ cc, cache_nb.cells.get?
            (((nb.cells.take i).filter (fun x => x.cell_type == "code")).length) = some cc ∧
          merged.cells.get? i = some (mergeCell none nb.nbformat_minor cc c) ∧
          (mergeCell none nb.nbformat_minor cc c).cell_type = "code" ∧
          (mergeCell none nb.nbformat_minor cc c).metadata = c.metadata ∧
          (mergeCell none nb.nbformat_minor cc c).source = c.source) := by
  have h5 := create_hashed_notebook_ok_minor hhash
  have h50 := create_hashed_notebook_ok_minor hhash0
  have heq1 := (create_hashed_notebook_eq nb DEFAULT_NB_METADATA none h5).symm.trans hhash
  have heq2 := (create_hashed_notebook_eq nb0 DEFAULT_NB_METADATA none h50).symm.trans hhash0
  injection heq1 with hp1
  injection hp1 with ha hfp
  injection heq2 with hp2
  injection hp2 with hcache hfp0
  subst hcache
  have hcells : (nb.cells.filter (fun c => c.cell_type == "code")).map (cellProj none) =
      (nb0.cells.filter (fun c => c.cell_type == "code")).map (cellProj none) :=
    congrArg HashNb.cells (hfp.trans hfp0.symm)
  have hlen : (nb.cells.filter (fun c => c.cell_type == "code")).length =
      (nb0.cells.filter (fun c => c.cell_type == "code")).length := by
    have := congrArg List.length hcells
    rwa [List.length_map, List.length_map] at this
  obtain ⟨out, hout, hlenout, hnon, hcodeidx⟩ :=
    mergeCells_spec none nb.nbformat_minor nb.cells
      (nb0.cells.filter (fun c => c.cell_type == "code")) hlen
  refine ⟨{ nb with
      metadata := (["kernelspec", "language_info", "widgets"]).foldl
        (fun m key =>
          match metaLookup nb0.metadata key with
          | some v => metaSet m key v
          | none => m)
        nb.metadata
      cells := out }, ?_, ?_, ?_, ?_⟩
  · simp only [merge_match_into_notebook, match_cache_notebook, hhash, hfind,
      get_cache_bundle, hfindpk, diskFind, touchRecord, hdiskf, nbf_convert,
      DEFAULT_MERGE_NB_META, hout]
  · exact hlenout
  · exact hnon
  · intro i c hget hc
    obtain ⟨cc, hcc, hmerged⟩ := hcodeidx i c hget hc
    refine ⟨cc, hcc, hmerged, ?_, ?_, ?_⟩
    all_goals {
      have hj := codeCells_get nb.cells i c hget hc
      have hmapeq := congrArg
        (fun l => l.get? (((nb.cells.take i).filter (fun x => x.cell_type == "code")).length))
        hcells
      simp only [List.get?_map, hj, hcc, Option.map_some'] at hmapeq
      have hproj : cellProj none c = cellProj none cc := Option.some.inj hmapeq
      have htype : c.cell_type = cc.cell_type := congrArg HashCell.cell_type hproj
      have hsrc : c.source = cc.source := congrArg HashCell.source hproj
      have hmeta0 : filterMeta none c.metadata = filterMeta none cc.metadata :=
        congrArg HashCell.metadata hproj
      rw [filterMeta_none, filterMeta_none] at hmeta0
      obtain ⟨hm, hs, ht⟩ := mergeCell_none_fields nb.nbformat_minor cc c
      first
        | (rw [ht, ← htype]; exact hc)
        | (rw [hm]; exact hmeta0.symm)
        | (rw [hs]; exact hsrc.symm)
    }

/-- An input notebook with a markdown cell and an unexecuted code cell. -/
def c5Nb : Notebook :=
  { nbformat := 4, nbformat_minor := 5
    metadata := [("kernelspec", "py3")]
    cells :=
      [{ cell_type := "markdown", source := "# t", metadata := [],
         execution_count := none, outputs := [], id := some "m" },
       { cell_type := "code", source := "x=1", metadata := [("tags", "t1")],
         execution_count := none, outputs := [], id := some "c" }] }

/-- The executed origin notebook with the same fingerprint. -/
def c5Nb0 : Notebook :=
  { nbformat := 4, nbformat_minor := 5
    metadata := [("kernelspec", "py3"), ("language_info", "py")]
    cells :=
      [{ cell_type := "code", source := "x=1", metadata := [("tags", "t1")],
         execution_count := some 1, outputs := ["done"], id := some "orig" }] }

/-- The cached canonical notebook: `c5Nb0` with non-code cells dropped. -/
def c5CacheNb : Notebook :=
  { nbformat := 4, nbformat_minor := 5
    metadata := [("kernelspec", "py3"), ("language_info", "py")]
    cells :=
      [{ cell_type := "code", source := "x=1", metadata := [("tags", "t1")],
         execution_count := some 1, outputs := ["done"], id := some "orig" }] }

/-- The shared fingerprint of `c5Nb` and `c5Nb0`. -/
def c5Fp : Fingerprint :=
  { nbformat := 4, nbformat_minor := 4
    metadata := [("kernelspec", "py3")]
    cells := [{ cell_type := "code", source := "x=1", metadata := [("tags", "t1")],
                execution_count := none, outputs := [] }] }

/-- The cache record for the fingerprint. -/
def c5Record : NbCacheRecord :=
  { pk := 1, hashkey := c5Fp, uri := "o.ipynb", description := "", data := [],
    created := 0, accessed := 0 }

/-- The store holding the cached execution of `c5Nb0`. -/
def c5State : CacheState :=
  { records := [c5Record]
    disk := [⟨c5Fp, c5CacheNb, []⟩]
    nextPk := 2
    cache_limit_setting := none
    time := 7 }

/-- Witness for C5, at the concrete matched store. -/
theorem claim5_witness :
    c5State.records.find? (fun r => r.hashkey == c5Fp) = some c5Record ∧
    (∃ merged, merge_match_into_notebook c5Nb DEFAULT_MERGE_NB_META none c5State =
        .ok ((c5Record.pk, merged), touchRecord c5Record.pk c5State) ∧
      merged.cells.length = c5Nb.cells.length ∧
      (∀ i c, c5Nb.cells.get? i = some c → c.cell_type ≠ "code" →
        merged.cells.get? i = some c) ∧
      (∀ i c, c5Nb.cells.get? i = some c → c.cell_type = "code" →
        ∃ cc, c5CacheNb.cells.get?
            (((c5Nb.cells.take i).filter (fun x => x.cell_type == "code")).length) = some cc ∧
          merged.cells.get? i = some (mergeCell none c5Nb.nbformat_minor cc c) ∧
          (mergeCell none c5Nb.nbformat_minor cc c).cell_type = "code" ∧
          (mergeCell none c5Nb.nbformat_minor cc c).metadata = c.metadata ∧
          (mergeCell none c5Nb.nbformat_minor cc c).source = c.source)) :=
  ⟨by decide,
    claim5_merge_match c5Nb c5Nb0 c5State
      { c5Nb with cells := c5Nb.cells.filter (fun c => c.cell_type == "code") }
      c5CacheNb c5Fp c5Record [] (by decide) (by decide) (by decide) (by decide) (by decide)⟩

end JupyterCache
